import Mathlib

/-!
Verification of the CryptoBuddy price-lookup helper (`coin_gecko.py`).

The module is shallowly embedded: Python JSON values become the `Json`
inductive, the process-wide cache / issued-request log / sleep log become an
explicit `St` record threaded through every operation, the HTTP layer becomes
an oracle `ℕ → HttpOutcome` consulted at the current request count, and a
Python exception escaping a function is an `Except.error` carrying the
exception class name.  Clock readings (`time.time()`) are passed in as the
`now` argument of each top-level call; timestamps are integers.  String case
mapping and whitespace stripping are modelled for ASCII, which covers all
data appearing in the module.
-/

/-- Python JSON-like values.  `Json.null` also stands for Python `None`. -/
inductive Json where
  | null : Json
  | bool (b : Bool) : Json
  | num (q : Int) : Json
  | str (s : String) : Json
  | arr (xs : List Json) : Json
  | obj (kvs : List (String × Json)) : Json

/-- Python truthiness of a JSON value. -/
def truthy : Json → Bool
  | .null => false
  | .bool b => b
  | .num q => if q = 0 then false else true
  | .str s => if s = "" then false else true
  | .arr [] => false
  | .arr (_ :: _) => true
  | .obj [] => false
  | .obj (_ :: _) => true

/-- First-match association-list lookup (Python dict read; keys are unique). -/
def dlookup {α : Type} : List (String × α) → String → Option α
  | [], _ => none
  | (k, v) :: rest, key => if k = key then some v else dlookup rest key

/-- Python dict assignment `d[key] = v`: overwrite in place, else append. -/
def dinsert {α : Type} : List (String × α) → String → α → List (String × α)
  | [], key, v => [(key, v)]
  | (k, w) :: rest, key, v =>
    if k = key then (key, v) :: rest else (k, w) :: dinsert rest key v

/-- Python `d.pop(key, None)`: drop the entry for `key`, keep the rest. -/
def dremove {α : Type} : List (String × α) → String → List (String × α)
  | [], _ => []
  | (k, v) :: rest, key => if k = key then rest else (k, v) :: dremove rest key

/-- Python `d.get(k, dflt)` on a JSON value; `AttributeError` off a non-dict. -/
def jget (j : Json) (k : String) (dflt : Json) : Except String Json :=
  match j with
  | .obj kvs => .ok ((dlookup kvs k).getD dflt)
  | _ => .error "AttributeError"

/-- Python subscript `j[k]` on a JSON value. -/
def jindex (j : Json) (k : String) : Except String Json :=
  match j with
  | .obj kvs =>
    match dlookup kvs k with
    | some v => .ok v
    | none => .error "KeyError"
  | _ => .error "TypeError"

/-- Equality of a JSON value with a Python string (used by `in` on lists). -/
def isStrVal (j : Json) (k : String) : Bool :=
  match j with
  | .str s => if s = k then true else false
  | _ => false

/-- Does `l` start with `pat`? -/
def startsWithList : List Char → List Char → Bool
  | [], _ => true
  | _ :: _, [] => false
  | p :: ps, c :: cs => if p = c then startsWithList ps cs else false

/-- Does `pat` occur as a contiguous run inside `l`? -/
def substrIn (pat : List Char) : List Char → Bool
  | [] => startsWithList pat []
  | c :: cs => if startsWithList pat (c :: cs) then true else substrIn pat cs

/-- Python `k in j`: key test on dicts, membership on lists, substring on
strings, `TypeError` on numbers/booleans/None. -/
def jcontains (j : Json) (k : String) : Except String Bool :=
  match j with
  | .obj kvs => .ok ((kvs.map Prod.fst).contains k)
  | .arr xs => .ok (xs.any (fun e => isStrVal e k))
  | .str s => .ok (substrIn k.data s.data)
  | _ => .error "TypeError"

/-- Python slice `j[:n]` (strings and lists; `TypeError` otherwise). -/
def pySlice (j : Json) (n : ℕ) : Except String Json :=
  match j with
  | .str s => .ok (.str ⟨s.data.take n⟩)
  | .arr xs => .ok (.arr (xs.take n))
  | _ => .error "TypeError"

/-- The ASCII letter case table (lowercase, uppercase). -/
def caseTable : List (Char × Char) :=
  [('a','A'), ('b','B'), ('c','C'), ('d','D'), ('e','E'), ('f','F'),
   ('g','G'), ('h','H'), ('i','I'), ('j','J'), ('k','K'), ('l','L'),
   ('m','M'), ('n','N'), ('o','O'), ('p','P'), ('q','Q'), ('r','R'),
   ('s','S'), ('t','T'), ('u','U'), ('v','V'), ('w','W'), ('x','X'),
   ('y','Y'), ('z','Z')]

/-- ASCII uppercase of one character (Python `str.upper`, ASCII fragment). -/
def upChar (c : Char) : Char :=
  ((caseTable.find? (fun p => p.1 = c)).map Prod.snd).getD c

/-- ASCII lowercase of one character (Python `str.lower`, ASCII fragment). -/
def lowChar (c : Char) : Char :=
  ((caseTable.find? (fun p => p.2 = c)).map Prod.fst).getD c

/-- Python `s.upper()` (ASCII). -/
def pyUpper (s : String) : String := ⟨s.data.map upChar⟩

/-- Python `s.lower()` (ASCII). -/
def pyLower (s : String) : String := ⟨s.data.map lowChar⟩

/-- Drop leading and trailing whitespace from a character list. -/
def stripChars (l : List Char) : List Char :=
  ((l.dropWhile Char.isWhitespace).reverse.dropWhile Char.isWhitespace).reverse

/-- Python `s.strip()`. -/
def pyStrip (s : String) : String := ⟨stripChars s.data⟩

/-- Python `s.split(",")` (single-character separator). -/
def splitCommaAux : List Char → List Char → List String
  | [], acc => [⟨acc.reverse⟩]
  | c :: rest, acc =>
    if c = ',' then (⟨acc.reverse⟩ : String) :: splitCommaAux rest []
    else splitCommaAux rest (c :: acc)

/-- Python `s.split(",")`. -/
def pySplitComma (s : String) : List String := splitCommaAux s.data []

/-- `SYMBOL_TO_ID` from `coin_gecko.py`, in source order. -/
def SYMBOL_TO_ID : List (String × String) :=
  [("BTC", "bitcoin"), ("ETH", "ethereum"), ("ADA", "cardano"),
   ("DOT", "polkadot"), ("BNB", "binancecoin"), ("XRP", "ripple"),
   ("SOL", "solana"), ("LTC", "litecoin"), ("DOGE", "dogecoin"),
   ("AVAX", "avalanche-2"), ("LINK", "chainlink"), ("MATIC", "matic-network"),
   ("ATOM", "cosmos"), ("TRX", "tron")]

/-- `DEFAULT_TTL = 30` seconds. -/
def DEFAULT_TTL : Int := 30

/-- An HTTP GET request as issued by `_request` (path plus query params). -/
structure Request where
  path : String
  params : List (String × Json)

/-- One simulated transport outcome: a raised `requests.RequestException`
(`err`) or a decoded 2xx JSON body (`ok`). -/
inductive HttpOutcome where
  | err (msg : String) : HttpOutcome
  | ok (body : Json) : HttpOutcome

/-- Process state: the module cache `_CACHE` (key ↦ (timestamp, data)), the
log of HTTP requests issued so far, and the log of `time.sleep` durations. -/
structure St where
  cache : List (String × (Int × Json))
  reqLog : List Request
  sleeps : List ℚ

/-- `_cache_get`: expired entries (now − ts > ttl) are popped and read as
absent; valid entries are returned with the cache untouched. -/
def _cache_get (cache : List (String × (Int × Json))) (now : Int)
    (key : String) (ttl : Int) :
    Option Json × List (String × (Int × Json)) :=
  match dlookup cache key with
  | none => (none, cache)
  | some (ts, data) =>
    if now - ts > ttl then (none, dremove cache key) else (some data, cache)

/-- `_cache_set`: store `(now, value)` under `key`. -/
def _cache_set (cache : List (String × (Int × Json))) (now : Int)
    (key : String) (value : Json) : List (String × (Int × Json)) :=
  dinsert cache key (now, value)

/-- The `for attempt in range(retries + 1)` loop body of `_request`: each
iteration issues one GET (consulting the oracle at the global request
count), returns the body on success, returns `{"error": str(e)}` on the
last attempt, and otherwise sleeps `backoff * (attempt + 1)` and retries.
An exhausted list is the unreachable `return None` after the loop. -/
def requestAttempts (oracle : ℕ → HttpOutcome) (path : String)
    (params : List (String × Json)) (retries : ℕ) (backoff : ℚ) :
    List ℕ → St → Option Json × St
  | [], st => (none, st)
  | attempt :: rest, st =>
    let st1 : St := { st with reqLog := st.reqLog ++ [⟨path, params⟩] }
    match oracle st.reqLog.length with
    | .ok body => (some body, st1)
    | .err e =>
      if attempt = retries then
        (some (Json.obj [("error", Json.str e)]), st1)
      else
        requestAttempts oracle path params retries backoff rest
          { st1 with sleeps := st1.sleeps ++ [backoff * ((attempt : ℚ) + 1)] }

/-- `_request(path, params, retries, backoff)`. -/
def _request (oracle : ℕ → HttpOutcome) (path : String)
    (params : List (String × Json)) (retries : ℕ) (backoff : ℚ) (st : St) :
    Option Json × St :=
  requestAttempts oracle path params retries backoff
    (List.range (retries + 1)) st

/-- `symbol_to_id`: uppercase lookup in `SYMBOL_TO_ID`, then the lowercased
input against the value set, else `None`. -/
def symbol_to_id (symbol_or_id : String) : Option String :=
  if symbol_or_id = "" then none
  else
    let s := pyUpper (pyStrip symbol_or_id)
    match dlookup SYMBOL_TO_ID s with
    | some v => some v
    | none =>
      let candidate := pyLower (pyStrip symbol_or_id)
      if (SYMBOL_TO_ID.map Prod.snd).contains candidate then some candidate
      else none

/-- Lexicographic (code-point) comparison of character lists: Python `<=`
on strings. -/
def charListLe : List Char → List Char → Bool
  | [], _ => true
  | _ :: _, [] => false
  | a :: as, b :: bs =>
    if a < b then true else if b < a then false else charListLe as bs

/-- Python `<=` on strings. -/
def pyStrLe (a b : String) : Bool := charListLe a.data b.data

/-- Insert a string into a `pyStrLe`-sorted list. -/
def insertSorted (s : String) : List String → List String
  | [] => [s]
  | t :: rest =>
    if pyStrLe s t then s :: t :: rest else t :: insertSorted s rest

/-- Python `sorted` on a list of strings: the unique weakly increasing
rearrangement under the code-point order. -/
def pySorted : List String → List String
  | [] => []
  | s :: rest => insertSorted s (pySorted rest)

/-- The symbol-resolution loop of `get_simple_price` (lines 112-118):
`mapping[sym.upper()] = symbol_to_id(sym)` and truthy ids are collected. -/
def resolve : List String → List String × List (String × Option String) →
    List String × List (String × Option String)
  | [], acc => acc
  | sym :: rest, (ids, mapping) =>
    let coin_id := symbol_to_id sym
    let mapping1 := dinsert mapping (pyUpper sym) coin_id
    let ids1 :=
      match coin_id with
      | some cid => if cid = "" then ids else ids ++ [cid]
      | none => ids
    resolve rest (ids1, mapping1)

/-- The resolved CoinGecko ids collected for a symbol list. -/
def simple_price_ids (symbols_list : List String) : List String :=
  (resolve symbols_list ([], [])).1

/-- The symbol → id mapping built for a symbol list (keys uppercased). -/
def simple_price_mapping (symbols_list : List String) :
    List (String × Option String) :=
  (resolve symbols_list ([], [])).2

/-- The cache key of `get_simple_price`:
`f"simple_price:{','.join(sorted(ids))}:{vs_currency}"`. -/
def simple_price_cache_key (symbols_list : List String) (vs_currency : String) :
    String :=
  "simple_price:" ++
    String.intercalate "," (pySorted (simple_price_ids symbols_list)) ++
    ":" ++ vs_currency

/-- Monadic map over `Except`, in order, aborting at the first error
(a Python `for` loop building a result dict entry by entry). -/
def mapME {α β : Type} (f : α → Except String β) :
    List α → Except String (List β)
  | [] => .ok []
  | a :: l =>
    match f a with
    | .error e => .error e
    | .ok b =>
      match mapME f l with
      | .error e => .error e
      | .ok bs => .ok (b :: bs)

/-- `symbols` argument of `get_simple_price`: a single string or a list. -/
inductive SymInput where
  | str (s : String) : SymInput
  | list (xs : List String) : SymInput

/-- One entry of the cache-hit comprehension (line 124):
`cached.get(mapping[sym.upper()], {}).get(vs_currency)` when the mapped id
is truthy, else `None`. -/
def priceEntryCached (cached : Json) (mapping : List (String × Option String))
    (vs_currency : String) (p : String × Option String) :
    Except String (String × Json) :=
  match dlookup mapping (pyUpper p.1) with
  | none => .error "KeyError"
  | some cid? =>
    match cid? with
    | some cid =>
      if cid = "" then .ok (p.1, Json.null)
      else do
        let inner ← jget cached cid (Json.obj [])
        let v ← jget inner vs_currency Json.null
        pure (p.1, v)
    | none => .ok (p.1, Json.null)

/-- One entry of the response projection loop (lines 136-140):
`data[cid][vs_currency]` when `cid and data.get(cid) and vs_currency in
data[cid]`, else `None`. -/
def priceEntryData (data : Json) (vs_currency : String)
    (p : String × Option String) : Except String (String × Json) :=
  match p.2 with
  | none => .ok (p.1, Json.null)
  | some cid =>
    if cid = "" then .ok (p.1, Json.null)
    else do
      let g ← jget data cid Json.null
      if truthy g then do
        let sub ← jindex data cid
        let memb ← jcontains sub vs_currency
        if memb then do
          let v ← jindex sub vs_currency
          pure (p.1, v)
        else pure (p.1, Json.null)
      else pure (p.1, Json.null)

/-- `{sym: None for sym in mapping}`. -/
def allNone (mapping : List (String × Option String)) : List (String × Json) :=
  mapping.map (fun p => (p.1, Json.null))

/-- `get_simple_price(symbols, vs_currency, ttl)`. -/
def get_simple_price (oracle : ℕ → HttpOutcome) (now : Int)
    (symbols : SymInput) (vs_currency : String) (ttl : Int) (st : St) :
    Except String (List (String × Json) × St) :=
  let symbols_list :=
    match symbols with
    | .str s => (((pySplitComma s).map pyStrip).filter (fun t => t ≠ ""))
    | .list xs => xs
  let ids := simple_price_ids symbols_list
  let mapping := simple_price_mapping symbols_list
  let cache_key := simple_price_cache_key symbols_list vs_currency
  let cg := _cache_get st.cache now cache_key ttl
  let st1 : St := { st with cache := cg.2 }
  match cg.1 with
  | some cached => do
    let res ← mapME (priceEntryCached cached mapping vs_currency) mapping
    pure (res, st1)
  | none =>
    match ids with
    | [] => .ok (allNone mapping, st1)
    | _ :: _ =>
      let params := [("ids", Json.str (String.intercalate "," ids)),
                     ("vs_currencies", Json.str vs_currency)]
      let rq := _request oracle "/simple/price" params 2 (4/5) st1
      let st2 := rq.2
      match rq.1 with
      | none => .ok (allNone mapping, st2)
      | some data =>
        if truthy data then do
          let hasErr ← jcontains data "error"
          if hasErr then pure (allNone mapping, st2)
          else
            let st3 : St :=
              { st2 with cache := _cache_set st2.cache now cache_key data }
            do
              let res ← mapME (priceEntryData data vs_currency) mapping
              pure (res, st3)
        else .ok (allNone mapping, st2)

/-- `bulk_prices(symbols, vs_currency, ttl)`: list wrapper. -/
def bulk_prices (oracle : ℕ → HttpOutcome) (now : Int)
    (symbols : List String) (vs_currency : String) (ttl : Int) (st : St) :
    Except String (List (String × Json) × St) :=
  get_simple_price oracle now (.list symbols) vs_currency ttl st

/-- The shared failure test `not data or "error" in data` on a `_request`
result (short-circuit, may raise on malformed truthy non-containers). -/
def respFailed (data? : Option Json) : Except String Bool :=
  match data? with
  | none => .ok true
  | some d => if truthy d then jcontains d "error" else .ok true

/-- The shared failure payload
`{"error": data.get("error") if isinstance(data, dict) else "request failed"}`. -/
def errorReturn (data? : Option Json) : Json :=
  match data? with
  | some (.obj kvs) => Json.obj [("error", (dlookup kvs "error").getD Json.null)]
  | _ => Json.obj [("error", Json.str "request failed")]

/-- The seven projected fields of `get_market_data`, in source order. -/
def marketFields : List String :=
  ["id", "symbol", "name", "current_price", "market_cap",
   "price_change_percentage_24h", "total_volume"]

/-- `record.get(k)` for each field, in order (first failure raises). -/
def pluckFields (record : Json) (fields : List String) :
    Except String (List (String × Json)) :=
  mapME (fun k => do
    let v ← jget record k Json.null
    pure (k, v)) fields

/-- Fetch-and-project tail of `get_market_data` (lines 166-185). -/
def market_data_fetch (oracle : ℕ → HttpOutcome) (now : Int)
    (coin_id vs_currency cache_key : String) (st : St) :
    Except String (Json × St) :=
  let params := [("vs_currency", Json.str vs_currency),
                 ("ids", Json.str coin_id),
                 ("order", Json.str "market_cap_desc"),
                 ("per_page", Json.num 1), ("page", Json.num 1),
                 ("sparkline", Json.bool false)]
  let rq := _request oracle "/coins/markets" params 2 (4/5) st
  let st2 := rq.2
  do
    let failed ← respFailed rq.1
    if failed then .ok (errorReturn rq.1, st2)
    else
      match rq.1 with
      | some (.arr (record :: _)) => do
        let kvs ← pluckFields record marketFields
        let out := Json.obj kvs
        let st3 : St :=
          { st2 with cache := _cache_set st2.cache now cache_key out }
        pure (out, st3)
      | _ => .ok (Json.obj [("error", Json.str "no data returned")], st2)

/-- `get_market_data(symbol, vs_currency, ttl)`. -/
def get_market_data (oracle : ℕ → HttpOutcome) (now : Int)
    (symbol vs_currency : String) (ttl : Int) (st : St) :
    Except String (Json × St) :=
  match symbol_to_id symbol with
  | none =>
    .ok (Json.obj [("error",
      Json.str "unknown symbol or id mapping not available")], st)
  | some coin_id =>
    if coin_id = "" then
      .ok (Json.obj [("error",
        Json.str "unknown symbol or id mapping not available")], st)
    else
      let cache_key := "market_data:" ++ coin_id ++ ":" ++ vs_currency
      let cg := _cache_get st.cache now cache_key ttl
      let st1 : St := { st with cache := cg.2 }
      match cg.1 with
      | some c =>
        if truthy c then .ok (c, st1)
        else market_data_fetch oracle now coin_id vs_currency cache_key st1
      | none => market_data_fetch oracle now coin_id vs_currency cache_key st1

/-- Fetch-and-project tail of `get_coin_info` (lines 202-214), including the
`[:800]` description trim and `[:3]` homepage trim. -/
def coin_info_fetch (oracle : ℕ → HttpOutcome) (now : Int)
    (coin_id cache_key : String) (st : St) : Except String (Json × St) :=
  let params := [("localization", Json.str "false"),
                 ("tickers", Json.str "false"),
                 ("market_data", Json.str "false"),
                 ("community_data", Json.str "false"),
                 ("developer_data", Json.str "false"),
                 ("sparkline", Json.str "false")]
  let rq := _request oracle ("/coins/" ++ coin_id) params 2 (4/5) st
  let st2 := rq.2
  do
    let failed ← respFailed rq.1
    if failed then .ok (errorReturn rq.1, st2)
    else
      match rq.1 with
      | some data => do
        let idv ← jget data "id" Json.null
        let symv ← jget data "symbol" Json.null
        let namev ← jget data "name" Json.null
        let dsc ← jget data "description" Json.null
        let dsc2 ← jget (if truthy dsc then dsc else Json.obj []) "en"
          (Json.str "")
        let dsc3 ← pySlice dsc2 800
        let lnk ← jget data "links" Json.null
        let lnk2 ← jget (if truthy lnk then lnk else Json.obj []) "homepage"
          (Json.arr [])
        let lnk3 ← pySlice lnk2 3
        let out := Json.obj [("id", idv), ("symbol", symv), ("name", namev),
                             ("description", dsc3), ("homepage", lnk3)]
        let st3 : St :=
          { st2 with cache := _cache_set st2.cache now cache_key out }
        pure (out, st3)
      | none => .ok (errorReturn none, st2)

/-- `get_coin_info(symbol, ttl)`. -/
def get_coin_info (oracle : ℕ → HttpOutcome) (now : Int) (symbol : String)
    (ttl : Int) (st : St) : Except String (Json × St) :=
  match symbol_to_id symbol with
  | none => .ok (Json.obj [("error", Json.str "unknown symbol")], st)
  | some coin_id =>
    if coin_id = "" then
      .ok (Json.obj [("error", Json.str "unknown symbol")], st)
    else
      let cache_key := "coin_info:" ++ coin_id
      let cg := _cache_get st.cache now cache_key ttl
      let st1 : St := { st with cache := cg.2 }
      match cg.1 with
      | some c =>
        if truthy c then .ok (c, st1)
        else coin_info_fetch oracle now coin_id cache_key st1
      | none => coin_info_fetch oracle now coin_id cache_key st1

/-- Fetch-and-project tail of `search_coin` (lines 229-237), including the
`[:limit]` trim of the coin matches. -/
def search_fetch (oracle : ℕ → HttpOutcome) (now : Int) (query : String)
    (limit : ℕ) (cache_key : String) (st : St) : Except String (Json × St) :=
  let rq := _request oracle "/search" [("query", Json.str query)] 2 (4/5) st
  let st2 := rq.2
  do
    let failed ← respFailed rq.1
    if failed then .ok (errorReturn rq.1, st2)
    else
      match rq.1 with
      | some data => do
        let cv ← jget data "coins" (Json.arr [])
        let coins ← pySlice cv limit
        let result := Json.obj [("coins", coins)]
        let st3 : St :=
          { st2 with cache := _cache_set st2.cache now cache_key result }
        pure (result, st3)
      | none => .ok (errorReturn none, st2)

/-- `search_coin(query, limit)` (its cache read always uses `DEFAULT_TTL`). -/
def search_coin (oracle : ℕ → HttpOutcome) (now : Int) (query : String)
    (limit : ℕ) (st : St) : Except String (Json × St) :=
  if query = "" then .ok (Json.obj [("error", Json.str "empty query")], st)
  else
    let cache_key := "search:" ++ pyLower query ++ ":" ++ toString limit
    let cg := _cache_get st.cache now cache_key DEFAULT_TTL
    let st1 : St := { st with cache := cg.2 }
    match cg.1 with
    | some c =>
      if truthy c then .ok (c, st1)
      else search_fetch oracle now query limit cache_key st1
    | none => search_fetch oracle now query limit cache_key st1

/-! ### Character-level facts about the ASCII case maps -/

theorem lowChar_upChar (c : Char) : lowChar (upChar c) = lowChar c := by
  cases h : caseTable.find? (fun p => p.1 = c) with
  | none =>
    have h1 : upChar c = c := by simp [upChar, h]
    rw [h1]
  | some pair =>
    have hc : pair.1 = c := by
      have h2 := List.find?_some h
      simpa using h2
    have hmem : pair ∈ caseTable := List.mem_of_find?_eq_some h
    have h1 : upChar c = pair.2 := by simp [upChar, h]
    have hlow : ∀ q ∈ caseTable, lowChar q.2 = q.1 := by decide
    have hfix : ∀ q ∈ caseTable, lowChar q.1 = q.1 := by decide
    rw [h1, hlow pair hmem, ← hc, hfix pair hmem]

theorem upChar_upChar (c : Char) : upChar (upChar c) = upChar c := by
  cases h : caseTable.find? (fun p => p.1 = c) with
  | none =>
    have h1 : upChar c = c := by simp [upChar, h]
    rw [h1]; exact h1
  | some pair =>
    have hmem : pair ∈ caseTable := List.mem_of_find?_eq_some h
    have h1 : upChar c = pair.2 := by simp [upChar, h]
    have hup : ∀ q ∈ caseTable,
        caseTable.find? (fun p => p.1 = q.2) = none := by decide
    rw [h1]
    simp [upChar, hup pair hmem]

theorem isWhitespace_upChar (c : Char) :
    (upChar c).isWhitespace = c.isWhitespace := by
  cases h : caseTable.find? (fun p => p.1 = c) with
  | none =>
    have h1 : upChar c = c := by simp [upChar, h]
    rw [h1]
  | some pair =>
    have hc : pair.1 = c := by
      have h2 := List.find?_some h
      simpa using h2
    have hmem : pair ∈ caseTable := List.mem_of_find?_eq_some h
    have h1 : upChar c = pair.2 := by simp [upChar, h]
    have hws : ∀ q ∈ caseTable,
        (Prod.snd q).isWhitespace = (Prod.fst q).isWhitespace := by decide
    rw [h1, hws pair hmem, hc]

/-! ### String-level congruence: `symbol_to_id` factors through `pyUpper` -/

theorem dropWhile_map_ws (f : Char → Char)
    (hf : ∀ c, (f c).isWhitespace = c.isWhitespace) (l : List Char) :
    (l.map f).dropWhile Char.isWhitespace =
      (l.dropWhile Char.isWhitespace).map f := by
  induction l with
  | nil => rfl
  | cons c cs ih =>
    simp only [List.map_cons, List.dropWhile_cons, hf c]
    by_cases h : c.isWhitespace
    · simp [h, ih]
    · simp [h]

theorem stripChars_map_ws (f : Char → Char)
    (hf : ∀ c, (f c).isWhitespace = c.isWhitespace) (l : List Char) :
    stripChars (l.map f) = (stripChars l).map f := by
  unfold stripChars
  rw [dropWhile_map_ws f hf l, ← List.map_reverse,
    dropWhile_map_ws f hf, List.map_reverse]

theorem map_lowChar_of_map_upChar {l₁ l₂ : List Char}
    (h : l₁.map upChar = l₂.map upChar) :
    l₁.map lowChar = l₂.map lowChar := by
  have h1 : (l₁.map upChar).map lowChar = (l₂.map upChar).map lowChar := by
    rw [h]
  simpa only [List.map_map, Function.comp_def, lowChar_upChar] using h1

/-- `symbol_to_id` only depends on the uppercased input: two strings with
the same uppercasing resolve identically. -/
theorem symbol_to_id_congr {s₁ s₂ : String}
    (h : pyUpper s₁ = pyUpper s₂) : symbol_to_id s₁ = symbol_to_id s₂ := by
  have hd : s₁.data.map upChar = s₂.data.map upChar := by
    have h2 := congrArg String.data h
    simpa [pyUpper] using h2
  have hnil : (s₁ = "") ↔ (s₂ = "") := by
    rw [String.ext_iff, String.ext_iff,
      show ("" : String).data = [] from rfl]
    constructor
    · intro he
      rw [he] at hd
      simpa using hd.symm
    · intro he
      rw [he] at hd
      simpa using hd
  have hupStrip : pyUpper (pyStrip s₁) = pyUpper (pyStrip s₂) := by
    apply String.ext
    show (stripChars s₁.data).map upChar = (stripChars s₂.data).map upChar
    rw [← stripChars_map_ws upChar isWhitespace_upChar,
      ← stripChars_map_ws upChar isWhitespace_upChar, hd]
  have hlowStrip : pyLower (pyStrip s₁) = pyLower (pyStrip s₂) := by
    apply String.ext
    show (stripChars s₁.data).map lowChar = (stripChars s₂.data).map lowChar
    apply map_lowChar_of_map_upChar
    rw [← stripChars_map_ws upChar isWhitespace_upChar,
      ← stripChars_map_ws upChar isWhitespace_upChar, hd]
  by_cases hb : s₂ = ""
  · have hb1 : s₁ = "" := hnil.mpr hb
    simp [symbol_to_id, hb, hb1]
  · have hb1 : ¬ s₁ = "" := fun hx => hb (hnil.mp hx)
    simp only [symbol_to_id, if_neg hb, if_neg hb1, hupStrip, hlowStrip]

theorem pyUpper_pyUpper (s : String) : pyUpper (pyUpper s) = pyUpper s := by
  apply String.ext
  show (s.data.map upChar).map upChar = s.data.map upChar
  simp only [List.map_map, Function.comp_def, upChar_upChar]

/-! ### Association-list lemmas -/

theorem dlookup_mem {α : Type} {m : List (String × α)} {k : String} {v : α}
    (h : dlookup m k = some v) : (k, v) ∈ m := by
  induction m with
  | nil => simp [dlookup] at h
  | cons p rest ih =>
    rcases p with ⟨k', v'⟩
    by_cases he : k' = k
    · subst he
      simp [dlookup] at h
      subst h
      exact List.mem_cons_self _ _
    · simp only [dlookup, if_neg he] at h
      exact List.mem_cons_of_mem _ (ih h)

theorem mem_dlookup {α : Type} {m : List (String × α)} {k : String} {v : α}
    (hmem : (k, v) ∈ m) (hnd : (m.map Prod.fst).Nodup) :
    dlookup m k = some v := by
  induction m with
  | nil => simp at hmem
  | cons p rest ih =>
    rcases p with ⟨k', v'⟩
    simp only [List.map_cons, List.nodup_cons] at hnd
    rcases List.mem_cons.mp hmem with he | hm
    · rw [Prod.mk.injEq] at he
      obtain ⟨he1, he2⟩ := he
      subst he1; subst he2
      simp [dlookup]
    · by_cases he : k' = k
      · subst he
        exact absurd (List.mem_map_of_mem Prod.fst hm) hnd.1
      · simp only [dlookup, if_neg he]
        exact ih hm hnd.2

theorem dlookup_dinsert_self {α : Type} (m : List (String × α)) (k : String)
    (v : α) : dlookup (dinsert m k v) k = some v := by
  induction m with
  | nil => simp [dinsert, dlookup]
  | cons p rest ih =>
    rcases p with ⟨k', v'⟩
    by_cases he : k' = k
    · subst he
      simp [dinsert, dlookup]
    · simp [dinsert, dlookup, if_neg he, ih]

theorem dlookup_dinsert_other {α : Type} (m : List (String × α))
    (k x : String) (v : α) (hx : x ≠ k) :
    dlookup (dinsert m k v) x = dlookup m x := by
  induction m with
  | nil => simp [dinsert, dlookup, if_neg (Ne.symm hx)]
  | cons p rest ih =>
    rcases p with ⟨k', v'⟩
    by_cases he : k' = k
    · subst he
      simp [dinsert, dlookup, if_neg (Ne.symm hx)]
    · by_cases he2 : k' = x
      · subst he2
        simp [dinsert, dlookup, if_neg he]
      · simp [dinsert, dlookup, if_neg he, if_neg he2, ih]

theorem mem_keys_dinsert {α : Type} (m : List (String × α)) (k x : String)
    (v : α) :
    x ∈ (dinsert m k v).map Prod.fst ↔ x ∈ m.map Prod.fst ∨ x = k := by
  induction m with
  | nil => simp [dinsert]
  | cons p rest ih =>
    rcases p with ⟨k', v'⟩
    by_cases he : k' = k
    · subst he
      simp [dinsert]
      tauto
    · simp only [dinsert, if_neg he, List.map_cons, List.mem_cons, ih]
      tauto

theorem nodup_keys_dinsert {α : Type} (m : List (String × α)) (k : String)
    (v : α) (hnd : (m.map Prod.fst).Nodup) :
    ((dinsert m k v).map Prod.fst).Nodup := by
  induction m with
  | nil => simp [dinsert]
  | cons p rest ih =>
    rcases p with ⟨k', v'⟩
    simp only [List.map_cons, List.nodup_cons] at hnd
    by_cases he : k' = k
    · subst he
      have hrw : dinsert ((k', v') :: rest) k' v = (k', v) :: rest := by
        simp [dinsert]
      rw [hrw]
      simp only [List.map_cons, List.nodup_cons]
      exact hnd
    · simp only [dinsert, if_neg he, List.map_cons, List.nodup_cons]
      refine ⟨fun hc => ?_, ih hnd.2⟩
      rcases (mem_keys_dinsert rest k k' v).mp hc with hin | heq
      · exact hnd.1 hin
      · exact he heq

/-! ### Lemmas about the resolution loop -/

/-- The id contributed by one symbol (the truthiness filter of line 117). -/
def idOf (sym : String) : Option String :=
  match symbol_to_id sym with
  | some cid => if cid = "" then none else some cid
  | none => none

theorem resolve_ids_spec (syms : List String) :
    ∀ ids₀ m₀, (resolve syms (ids₀, m₀)).1 = ids₀ ++ syms.filterMap idOf := by
  induction syms with
  | nil => intro ids₀ m₀; simp [resolve]
  | cons sym rest ih =>
    intro ids₀ m₀
    simp only [resolve, List.filterMap_cons]
    cases hs : symbol_to_id sym with
    | none => simp only [idOf, hs, ih, List.append_nil]
    | some cid =>
      by_cases hc : cid = ""
      · subst hc
        simp [idOf, hs, ih]
      · simp only [idOf, hs, if_neg hc, ih, List.append_assoc,
          List.singleton_append]

theorem resolve_keys_mem (syms : List String) :
    ∀ ids₀ m₀ (x : String),
      x ∈ (resolve syms (ids₀, m₀)).2.map Prod.fst ↔
        x ∈ m₀.map Prod.fst ∨ x ∈ syms.map pyUpper := by
  induction syms with
  | nil => intro ids₀ m₀ x; simp [resolve]
  | cons sym rest ih =>
    intro ids₀ m₀ x
    simp only [resolve]
    rw [ih]
    simp only [mem_keys_dinsert, List.map_cons, List.mem_cons]
    tauto

theorem resolve_keys_nodup (syms : List String) :
    ∀ ids₀ m₀, (m₀.map Prod.fst).Nodup →
      ((resolve syms (ids₀, m₀)).2.map Prod.fst).Nodup := by
  induction syms with
  | nil => intro ids₀ m₀ h; simpa [resolve] using h
  | cons sym rest ih =>
    intro ids₀ m₀ h
    simp only [resolve]
    exact ih _ _ (nodup_keys_dinsert m₀ (pyUpper sym) (symbol_to_id sym) h)

theorem resolve_upper_fixed (syms : List String) :
    ∀ ids₀ m₀, (∀ k ∈ m₀.map Prod.fst, pyUpper k = k) →
      ∀ k ∈ (resolve syms (ids₀, m₀)).2.map Prod.fst, pyUpper k = k := by
  induction syms with
  | nil => intro ids₀ m₀ h; simpa [resolve] using h
  | cons sym rest ih =>
    intro ids₀ m₀ h
    simp only [resolve]
    apply ih
    intro k hk
    rcases (mem_keys_dinsert m₀ (pyUpper sym) k (symbol_to_id sym)).mp hk with
      hin | heq
    · exact h k hin
    · subst heq
      exact pyUpper_pyUpper sym

theorem resolve_lookup_none (syms : List String) :
    ∀ ids₀ m₀ (sym : String), symbol_to_id sym = none →
      (dlookup m₀ (pyUpper sym) = some none ∨ sym ∈ syms) →
      dlookup (resolve syms (ids₀, m₀)).2 (pyUpper sym) = some none := by
  induction syms with
  | nil =>
    intro ids₀ m₀ sym hres hd
    rcases hd with hd | hd
    · simpa [resolve] using hd
    · simp at hd
  | cons s rest ih =>
    intro ids₀ m₀ sym hres hd
    simp only [resolve]
    by_cases hup : pyUpper s = pyUpper sym
    · apply ih _ _ _ hres
      left
      rw [hup, dlookup_dinsert_self]
      have : symbol_to_id s = none := by
        rw [symbol_to_id_congr hup, hres]
      rw [this]
    · apply ih _ _ _ hres
      rcases hd with hd | hd
      · left
        rw [dlookup_dinsert_other _ _ _ _ (fun h => hup h.symm), hd]
      · rcases List.mem_cons.mp hd with he | hm
        · exact absurd (congrArg pyUpper he.symm) hup
        · right; exact hm

/-! ### Lemmas about `mapME` -/

theorem mapME_ok_fst {α β : Type}
    {f : (String × α) → Except String (String × β)}
    (hf : ∀ p q, f p = .ok q → q.1 = p.1) :
    ∀ {l res}, mapME f l = .ok res → res.map Prod.fst = l.map Prod.fst := by
  intro l
  induction l with
  | nil =>
    intro res h
    simp only [mapME] at h
    cases h
    rfl
  | cons a l ih =>
    intro res h
    simp only [mapME] at h
    cases hfa : f a with
    | error e => rw [hfa] at h; exact Except.noConfusion h
    | ok b =>
      rw [hfa] at h
      cases hml : mapME f l with
      | error e => rw [hml] at h; exact Except.noConfusion h
      | ok bs =>
        rw [hml] at h
        simp only [Except.ok.injEq] at h
        subst h
        simp only [List.map_cons, hf a b hfa, ih hml]

theorem mapME_ok_mem {α β : Type} {f : α → Except String β} :
    ∀ {l res} {p : α} {q : β}, mapME f l = .ok res → p ∈ l → f p = .ok q →
      q ∈ res := by
  intro l
  induction l with
  | nil => intro res p q h hp; simp at hp
  | cons a l ih =>
    intro res p q h hp hfp
    simp only [mapME] at h
    cases hfa : f a with
    | error e => rw [hfa] at h; exact Except.noConfusion h
    | ok b =>
      rw [hfa] at h
      cases hml : mapME f l with
      | error e => rw [hml] at h; exact Except.noConfusion h
      | ok bs =>
        rw [hml] at h
        simp only [Except.ok.injEq] at h
        subst h
        rcases List.mem_cons.mp hp with he | hm
        · subst he
          rw [hfa] at hfp
          cases hfp
          exact List.mem_cons_self _ _
        · exact List.mem_cons_of_mem _ (ih hml hm hfp)

/-! ### Lemmas about the retry loop -/

theorem requestAttempts_cons (oracle : ℕ → HttpOutcome) (path : String)
    (params : List (String × Json)) (retries : ℕ) (backoff : ℚ) (a : ℕ)
    (l : List ℕ) (st : St) :
    requestAttempts oracle path params retries backoff (a :: l) st =
      match oracle st.reqLog.length with
      | .ok body =>
        (some body, { st with reqLog := st.reqLog ++ [⟨path, params⟩] })
      | .err e =>
        if a = retries then
          (some (Json.obj [("error", Json.str e)]),
           { st with reqLog := st.reqLog ++ [⟨path, params⟩] })
        else
          requestAttempts oracle path params retries backoff l
            { st with reqLog := st.reqLog ++ [⟨path, params⟩],
                      sleeps := st.sleeps ++ [backoff * ((a : ℚ) + 1)] } := rfl

theorem requestAttempts_allfail (oracle : ℕ → HttpOutcome) (msgs : ℕ → String)
    (hfail : ∀ n, oracle n = .err (msgs n)) (path : String)
    (params : List (String × Json)) (retries : ℕ) (backoff : ℚ) :
    ∀ (k : ℕ), ∀ (start : ℕ) (st : St), start + k = retries →
      requestAttempts oracle path params retries backoff
          (List.range' start (k + 1)) st =
        (some (Json.obj [("error", Json.str (msgs (st.reqLog.length + k)))]),
         ⟨st.cache,
          st.reqLog ++ List.replicate (k + 1) ⟨path, params⟩,
          st.sleeps ++ (List.range' start k).map
            (fun (attempt : ℕ) => backoff * ((attempt : ℚ) + 1))⟩) := by
  intro k
  induction k with
  | zero =>
    intro start st h
    have hs : start = retries := by omega
    rw [List.range'_one, requestAttempts_cons, hfail st.reqLog.length]
    simp only [if_pos hs, List.range'_zero, List.map_nil, List.append_nil,
      Nat.add_zero, List.replicate_one]
    rfl
  | succ k ih =>
    intro start st h
    have hne : start ≠ retries := by omega
    rw [List.range'_succ, requestAttempts_cons, hfail st.reqLog.length]
    simp only [if_neg hne]
    rw [ih (start + 1)
      { st with reqLog := st.reqLog ++ [⟨path, params⟩],
                sleeps := st.sleeps ++ [backoff * ((start : ℚ) + 1)] }
      (by omega)]
    simp only [List.length_append, List.length_cons, List.length_nil,
      List.append_assoc, List.singleton_append, List.range'_succ,
      List.map_cons, List.replicate_succ, Prod.mk.injEq]
    constructor
    · have he : st.reqLog.length + 1 + k = st.reqLog.length + (k + 1) := by
        omega
      rw [he]
    · trivial

theorem requestAttempts_reqLog_mono (oracle : ℕ → HttpOutcome) (path : String)
    (params : List (String × Json)) (retries : ℕ) (backoff : ℚ) :
    ∀ (l : List ℕ) (st : St),
      st.reqLog.length ≤
        (requestAttempts oracle path params retries backoff l st).2.reqLog.length := by
  intro l
  induction l with
  | nil => intro st; exact Nat.le_refl _
  | cons a l ih =>
    intro st
    simp only [requestAttempts]
    cases oracle st.reqLog.length with
    | ok body => simp
    | err e =>
      by_cases ha : a = retries
      · simp [ha]
      · simp only [if_neg ha]
        refine Nat.le_trans ?_ (ih _)
        simp

theorem requestAttempts_reqLog_grows (oracle : ℕ → HttpOutcome) (path : String)
    (params : List (String × Json)) (retries : ℕ) (backoff : ℚ)
    (a : ℕ) (l : List ℕ) (st : St) :
    st.reqLog.length <
      (requestAttempts oracle path params retries backoff (a :: l) st).2.reqLog.length := by
  simp only [requestAttempts]
  cases oracle st.reqLog.length with
  | ok body => simp
  | err e =>
    by_cases ha : a = retries
    · simp [ha]
    · simp only [if_neg ha]
      have hm := requestAttempts_reqLog_mono oracle path params retries backoff
        l ⟨st.cache, st.reqLog ++ [⟨path, params⟩],
           st.sleeps ++ [backoff * ((a : ℚ) + 1)]⟩
      refine Nat.lt_of_lt_of_le ?_ hm
      simp

theorem requestAttempts_cache_eq (oracle : ℕ → HttpOutcome) (path : String)
    (params : List (String × Json)) (retries : ℕ) (backoff : ℚ) :
    ∀ (l : List ℕ) (st : St),
      (requestAttempts oracle path params retries backoff l st).2.cache =
        st.cache := by
  intro l
  induction l with
  | nil => intro st; rfl
  | cons a l ih =>
    intro st
    simp only [requestAttempts]
    cases oracle st.reqLog.length with
    | ok body => rfl
    | err e =>
      by_cases ha : a = retries
      · simp [ha]
      · simp only [if_neg ha]
        exact ih _

/-! ### Failure-like responses -/

/-- Is this JSON a dict with an `"error"` key? -/
def isErrObj : Json → Bool
  | .obj kvs => (kvs.map Prod.fst).contains "error"
  | _ => false

/-- A response body that the shared `not data or "error" in data` test
classifies as failed (empty/falsy, or carrying an error marker). -/
def failyJson (d : Json) : Bool := !truthy d || isErrObj d

/-- A transport outcome that can only produce failed fetches: a raised
exception, or a failure-classified body. -/
def outcomeFaily : HttpOutcome → Bool
  | .err _ => true
  | .ok d => failyJson d

theorem requestAttempts_faily (oracle : ℕ → HttpOutcome)
    (hf : ∀ n, outcomeFaily (oracle n) = true) (path : String)
    (params : List (String × Json)) (retries : ℕ) (backoff : ℚ) :
    ∀ (k : ℕ), ∀ (start : ℕ) (st : St), start + k = retries →
      ∃ d st2,
        requestAttempts oracle path params retries backoff
            (List.range' start (k + 1)) st = (some d, st2) ∧
          failyJson d = true ∧ st2.cache = st.cache := by
  intro k
  induction k with
  | zero =>
    intro start st h
    have hs : start = retries := by omega
    rw [List.range'_one, requestAttempts_cons]
    cases ho : oracle st.reqLog.length with
    | ok body =>
      have hfb := hf st.reqLog.length
      rw [ho] at hfb
      exact ⟨body, _, rfl, hfb, rfl⟩
    | err e =>
      refine ⟨Json.obj [("error", Json.str e)],
        { st with reqLog := st.reqLog ++ [⟨path, params⟩] }, ?_, ?_, rfl⟩
      · simp [if_pos hs]
      · rfl
  | succ k ih =>
    intro start st h
    have hne : start ≠ retries := by omega
    rw [List.range'_succ, requestAttempts_cons]
    cases ho : oracle st.reqLog.length with
    | ok body =>
      have hfb := hf st.reqLog.length
      rw [ho] at hfb
      exact ⟨body, _, rfl, hfb, rfl⟩
    | err e =>
      simp only [if_neg hne]
      obtain ⟨d, st2, heq, hfd, hc⟩ := ih (start + 1)
        { st with reqLog := st.reqLog ++ [⟨path, params⟩],
                  sleeps := st.sleeps ++ [backoff * ((start : ℚ) + 1)] }
        (by omega)
      exact ⟨d, st2, heq, hfd, hc⟩

theorem respFailed_of_faily {d : Json} (h : failyJson d = true) :
    respFailed (some d) = .ok true := by
  unfold respFailed
  by_cases ht : truthy d = true
  · simp only [ht, if_true]
    unfold failyJson at h
    rw [ht] at h
    simp only [Bool.not_true, Bool.false_or] at h
    cases d with
    | obj kvs =>
      simp only [isErrObj] at h
      simp only [jcontains, h]
    | null => simp [isErrObj] at h
    | bool b => simp [isErrObj] at h
    | num q => simp [isErrObj] at h
    | str s => simp [isErrObj] at h
    | arr xs => simp [isErrObj] at h
  · simp only [Bool.not_eq_true] at ht
    simp [ht]

/-! ### Sorting lemmas (Python `sorted` on strings) -/

theorem charListLe_total : ∀ a b : List Char,
    charListLe a b = true ∨ charListLe b a = true := by
  intro a
  induction a with
  | nil => intro b; left; rfl
  | cons x as ih =>
    intro b
    cases b with
    | nil => right; rfl
    | cons y bs =>
      rcases lt_trichotomy x y with hlt | heq | hgt
      · left
        simp [charListLe, hlt]
      · subst heq
        simp only [charListLe, lt_irrefl, if_false]
        exact ih bs
      · right
        simp [charListLe, hgt]

theorem charListLe_antisymm : ∀ a b : List Char,
    charListLe a b = true → charListLe b a = true → a = b := by
  intro a
  induction a with
  | nil =>
    intro b _ hba
    cases b with
    | nil => rfl
    | cons y bs => simp [charListLe] at hba
  | cons x as ih =>
    intro b hab hba
    cases b with
    | nil => simp [charListLe] at hab
    | cons y bs =>
      rcases lt_trichotomy x y with hlt | heq | hgt
      · simp [charListLe, hlt, asymm hlt] at hba
      · subst heq
        simp only [charListLe, lt_irrefl, if_false] at hab hba
        rw [ih bs hab hba]
      · simp [charListLe, hgt, asymm hgt] at hab

theorem charListLe_trans : ∀ a b c : List Char, charListLe a b = true →
    charListLe b c = true → charListLe a c = true := by
  intro a
  induction a with
  | nil => intro b c _ _; rfl
  | cons x as ih =>
    intro b c hab hbc
    cases b with
    | nil => simp [charListLe] at hab
    | cons y bs =>
      cases c with
      | nil => simp [charListLe] at hbc
      | cons z cs =>
        rcases lt_trichotomy x y with hxy | hxy | hxy
        · rcases lt_trichotomy y z with hyz | hyz | hyz
          · simp [charListLe, lt_trans hxy hyz]
          · subst hyz
            simp [charListLe, hxy]
          · simp [charListLe, hyz, asymm hyz] at hbc
        · subst hxy
          simp only [charListLe, lt_irrefl, if_false] at hab
          rcases lt_trichotomy x z with hxz | hxz | hxz
          · simp [charListLe, hxz]
          · subst hxz
            simp only [charListLe, lt_irrefl, if_false] at hbc ⊢
            exact ih bs cs hab hbc
          · simp [charListLe, hxz, asymm hxz] at hbc
        · simp [charListLe, hxy, asymm hxy] at hab

theorem pyStrLe_total (a b : String) :
    pyStrLe a b = true ∨ pyStrLe b a = true :=
  charListLe_total a.data b.data

theorem pyStrLe_trans {a b c : String} (hab : pyStrLe a b = true)
    (hbc : pyStrLe b c = true) : pyStrLe a c = true :=
  charListLe_trans a.data b.data c.data hab hbc

theorem pyStrLe_antisymm {a b : String} (hab : pyStrLe a b = true)
    (hba : pyStrLe b a = true) : a = b :=
  String.ext (charListLe_antisymm a.data b.data hab hba)

theorem insertSorted_perm (s : String) (l : List String) :
    (insertSorted s l).Perm (s :: l) := by
  induction l with
  | nil => exact List.Perm.refl _
  | cons t rest ih =>
    by_cases h : pyStrLe s t = true
    · simp only [insertSorted, if_pos h]
      exact List.Perm.refl _
    · simp only [insertSorted, if_neg h]
      exact (List.Perm.cons t ih).trans (List.Perm.swap s t rest)

theorem pySorted_perm (l : List String) : (pySorted l).Perm l := by
  induction l with
  | nil => exact List.Perm.refl _
  | cons s rest ih =>
    exact (insertSorted_perm s (pySorted rest)).trans (List.Perm.cons s ih)

theorem insertSorted_pairwise (s : String) (l : List String)
    (hl : l.Pairwise (fun a b => pyStrLe a b = true)) :
    (insertSorted s l).Pairwise (fun a b => pyStrLe a b = true) := by
  induction l with
  | nil => simp [insertSorted]
  | cons t rest ih =>
    rcases List.pairwise_cons.mp hl with ⟨ht, hrest⟩
    by_cases h : pyStrLe s t = true
    · simp only [insertSorted, if_pos h]
      refine List.pairwise_cons.mpr ⟨?_, hl⟩
      intro b hb
      rcases List.mem_cons.mp hb with he | hb
      · subst he; exact h
      · exact pyStrLe_trans h (ht b hb)
    · have h2 : pyStrLe t s = true := by
        rcases pyStrLe_total s t with h3 | h3
        · exact absurd h3 h
        · exact h3
      simp only [insertSorted, if_neg h]
      refine List.pairwise_cons.mpr ⟨?_, ih hrest⟩
      intro b hb
      have hb2 : b = s ∨ b ∈ rest := by
        have hm := (insertSorted_perm s rest).mem_iff.mp hb
        simpa using hm
      rcases hb2 with he | hb2
      · subst he; exact h2
      · exact ht b hb2

theorem pySorted_pairwise (l : List String) :
    (pySorted l).Pairwise (fun a b => pyStrLe a b = true) := by
  induction l with
  | nil => simp [pySorted]
  | cons s rest ih => exact insertSorted_pairwise s (pySorted rest) ih

/-- Python `sorted` is permutation-invariant: any two rearrangements of the
same multiset of strings sort to the same list. -/
theorem pySorted_eq_of_perm {l₁ l₂ : List String} (h : l₁.Perm l₂) :
    pySorted l₁ = pySorted l₂ := by
  haveI : IsAntisymm String (fun a b => pyStrLe a b = true) :=
    ⟨fun a b hab hba => pyStrLe_antisymm hab hba⟩
  have hp : (pySorted l₁).Perm (pySorted l₂) :=
    (pySorted_perm l₁).trans (h.trans (pySorted_perm l₂).symm)
  exact List.eq_of_perm_of_sorted hp (pySorted_pairwise l₁)
    (pySorted_pairwise l₂)

/-! ### Claim theorems -/

/-- C10: `get_simple_price` accepts a single string: the string is split on
commas, each part whitespace-stripped, empty parts dropped, and the call
gives exactly the result of the list-input call on the parsed list (same
quote currency, ttl, state, network). -/
theorem c10_string_input_equiv (oracle : ℕ → HttpOutcome) (now : Int)
    (s vs_currency : String) (ttl : Int) (st : St) :
    get_simple_price oracle now (.str s) vs_currency ttl st =
      get_simple_price oracle now
        (.list (((pySplitComma s).map pyStrip).filter (fun t => t ≠ "")))
        vs_currency ttl st := rfl

/-- C5 (falsified as stated): a malformed provider response (HTTP 200 whose
JSON body is the number 5) makes `get_simple_price(["BTC"])` raise an
uncaught `TypeError` at `"error" in data`, so an exception does escape a
public operation. -/
theorem c5_exception_escapes :
    get_simple_price (fun _ => .ok (Json.num 5)) 0 (.list ["BTC"]) "usd" 30
        ⟨[], [], []⟩ = .error "TypeError" := rfl

/-- C6: for every `(symbol, id)` entry of `SYMBOL_TO_ID`, resolving the
uppercased symbol, the lowercased symbol, and the provider id itself all
yield the same provider id. -/
theorem c6_resolution_consistent (s id : String)
    (h : (s, id) ∈ SYMBOL_TO_ID) :
    symbol_to_id (pyUpper s) = some id ∧
      symbol_to_id (pyLower s) = some id ∧
      symbol_to_id id = some id := by
  fin_cases h <;> exact ⟨rfl, rfl, rfl⟩

/-- C6 witness: the `BTC → bitcoin` entry. -/
theorem c6_witness :
    symbol_to_id (pyUpper "BTC") = some "bitcoin" ∧
      symbol_to_id (pyLower "BTC") = some "bitcoin" ∧
      symbol_to_id "bitcoin" = some "bitcoin" :=
  c6_resolution_consistent "BTC" "bitcoin" (by simp [SYMBOL_TO_ID])

/-- C1: when every attempt raises a transient `requests` error, `_request`
makes exactly `retries + 1` attempts (one HTTP GET each), sleeps
`backoff * (attempt + 1)` between attempts (linearly increasing), and
returns an error marker instead of raising; `get_simple_price` (which
passes `retries = 2`, so 3 attempts, `backoff = 0.8`) then returns a
mapping carrying `None` for every requested symbol. -/
theorem c1_retry_exhaustion (oracle : ℕ → HttpOutcome) (msgs : ℕ → String)
    (hfail : ∀ n, oracle n = .err (msgs n)) :
    (∀ (path : String) (params : List (String × Json)) (retries : ℕ)
        (backoff : ℚ) (st : St),
      _request oracle path params retries backoff st =
        (some (Json.obj [("error",
            Json.str (msgs (st.reqLog.length + retries)))]),
         ⟨st.cache,
          st.reqLog ++ List.replicate (retries + 1) ⟨path, params⟩,
          st.sleeps ++ (List.range retries).map
            (fun (attempt : ℕ) => backoff * ((attempt : ℚ) + 1))⟩)) ∧
    (∀ (now : Int) (syms : List String) (vs : String) (ttl : Int)
        (rl : List Request) (sl : List ℚ),
      ∃ st2, get_simple_price oracle now (.list syms) vs ttl ⟨[], rl, sl⟩ =
          .ok (allNone (simple_price_mapping syms), st2) ∧
        (simple_price_ids syms ≠ [] →
          st2.reqLog.length = rl.length + 3 ∧
          st2.sleeps = sl ++ (List.range 2).map
            (fun (attempt : ℕ) => ((4 : ℚ)/5) * ((attempt : ℚ) + 1)))) := by
  have hreq : ∀ (path : String) (params : List (String × Json)) (retries : ℕ)
      (backoff : ℚ) (st : St),
      _request oracle path params retries backoff st =
        (some (Json.obj [("error",
            Json.str (msgs (st.reqLog.length + retries)))]),
         ⟨st.cache,
          st.reqLog ++ List.replicate (retries + 1) ⟨path, params⟩,
          st.sleeps ++ (List.range retries).map
            (fun (attempt : ℕ) => backoff * ((attempt : ℚ) + 1))⟩) := by
    intro path params retries backoff st
    unfold _request
    simp only [List.range_eq_range']
    exact requestAttempts_allfail oracle msgs hfail path params retries
      backoff retries 0 st (Nat.zero_add retries)
  refine ⟨hreq, ?_⟩
  intro now syms vs ttl rl sl
  cases hids : simple_price_ids syms with
  | nil =>
    refine ⟨⟨[], rl, sl⟩, ?_, fun hne => absurd rfl hne⟩
    simp only [get_simple_price, _cache_get, dlookup, hids]
  | cons i irest =>
    refine ⟨⟨[], rl ++ List.replicate 3 ⟨"/simple/price",
        [("ids", Json.str (String.intercalate "," (i :: irest))),
         ("vs_currencies", Json.str vs)]⟩,
      sl ++ (List.range 2).map
        (fun (attempt : ℕ) => ((4 : ℚ)/5) * ((attempt : ℚ) + 1))⟩, ?_, ?_⟩
    · simp only [get_simple_price, _cache_get, dlookup, hids]
      rw [hreq]
      simp only [truthy, jcontains, Bind.bind, Except.bind, List.map_cons,
        List.map_nil, List.contains_cons, if_true]
      rfl
    · intro _
      constructor
      · simp
      · rfl

/-- C1 witness: a concrete always-failing transport, `retries = 2`,
`backoff = 1`: exactly 3 logged attempts, sleeps `1*1` and `1*2`, and an
error-marker result. -/
theorem c1_witness :
    _request (fun _ => .err "boom") "/simple/price" [] 2 1 ⟨[], [], []⟩ =
      (some (Json.obj [("error", Json.str "boom")]),
       ⟨[], List.replicate 3 ⟨"/simple/price", []⟩,
        [] ++ (List.range 2).map
          (fun (attempt : ℕ) => (1 : ℚ) * ((attempt : ℚ) + 1))⟩) :=
  (c1_retry_exhaustion (fun _ => .err "boom") (fun _ => "boom")
    (fun _ => rfl)).1 "/simple/price" [] 2 1 ⟨[], [], []⟩

/-- A cache miss with resolvable ids makes `get_simple_price` issue at least
one HTTP request. -/
theorem get_simple_price_fetches (oracle : ℕ → HttpOutcome) (now : Int)
    (syms : List String) (vs : String) (ttl : Int) (st : St)
    (res : List (String × Json)) (st2 : St)
    (hmiss : (_cache_get st.cache now
      (simple_price_cache_key syms vs) ttl).1 = none)
    (hids : simple_price_ids syms ≠ [])
    (h : get_simple_price oracle now (.list syms) vs ttl st = .ok (res, st2)) :
    st.reqLog.length < st2.reqLog.length := by
  rcases List.exists_cons_of_ne_nil hids with ⟨i, irest, hcons⟩
  simp only [get_simple_price] at h
  simp only [hmiss, hcons] at h
  have hgrow : ∀ params : List (String × Json),
      st.reqLog.length <
        (_request oracle "/simple/price" params 2 (4/5)
          { st with cache := (_cache_get st.cache now
              (simple_price_cache_key syms vs) ttl).2 }).2.reqLog.length := by
    intro params
    unfold _request
    rw [show List.range (2 + 1) = 0 :: [1, 2] from rfl]
    have hg := requestAttempts_reqLog_grows oracle "/simple/price" params 2
      (4/5) 0 [1, 2]
      { st with cache := (_cache_get st.cache now
          (simple_price_cache_key syms vs) ttl).2 }
    exact hg
  set params := [("ids", Json.str (String.intercalate "," (i :: irest))),
                 ("vs_currencies", Json.str vs)] with hparams
  cases hrq : (_request oracle "/simple/price" params 2 (4/5)
      { st with cache := (_cache_get st.cache now
          (simple_price_cache_key syms vs) ttl).2 }).1 with
  | none =>
    simp only [hrq, Except.ok.injEq, Prod.mk.injEq] at h
    rw [← h.2]
    exact hgrow params
  | some data =>
    simp only [hrq] at h
    by_cases ht : truthy data = true
    · simp only [ht, if_true] at h
      cases hjc : jcontains data "error" with
      | error e =>
        simp only [hjc, Bind.bind, Except.bind] at h
        exact Except.noConfusion h
      | ok b =>
        simp only [hjc, Bind.bind, Except.bind] at h
        by_cases hb : b = true
        · simp only [hb, if_true, pure, Except.pure, Except.ok.injEq,
            Prod.mk.injEq] at h
          rw [← h.2]
          exact hgrow params
        · simp only [Bool.not_eq_true] at hb
          simp only [hb, Bool.false_eq_true, if_false] at h
          cases hm : mapME (priceEntryData data vs)
              (simple_price_mapping syms) with
          | error e =>
            simp only [hm] at h
            exact Except.noConfusion h
          | ok r =>
            simp only [hm, pure, Except.pure, Except.ok.injEq,
              Prod.mk.injEq] at h
            rw [← h.2]
            exact hgrow params
    · simp only [Bool.not_eq_true] at ht
      simp only [ht, if_false, Bool.false_eq_true, Except.ok.injEq,
        Prod.mk.injEq] at h
      rw [← h.2]
      exact hgrow params

/-- C3: a cache entry `(ts, data)` under `key` is valid iff
`now - ts ≤ ttl`: within the window the read returns the data and leaves
the cache unchanged; past it the read reports absent and removes the
entry; and past it `get_simple_price` goes on to issue a fresh HTTP
request. -/
theorem c3_cache_ttl_boundary (cache : List (String × (Int × Json)))
    (key : String) (ts : Int) (data : Json) (now ttl : Int)
    (hlook : dlookup cache key = some (ts, data)) :
    (now - ts ≤ ttl → _cache_get cache now key ttl = (some data, cache)) ∧
    (now - ts > ttl →
      _cache_get cache now key ttl = (none, dremove cache key)) ∧
    (∀ (oracle : ℕ → HttpOutcome) (vs : String) (st : St)
        (res : List (String × Json)) (st2 : St),
      st.cache = cache → key = simple_price_cache_key ["BTC"] vs →
      now - ts > ttl →
      get_simple_price oracle now (.list ["BTC"]) vs ttl st = .ok (res, st2) →
      st.reqLog.length < st2.reqLog.length) := by
  refine ⟨?_, ?_, ?_⟩
  · intro hle
    simp only [_cache_get, hlook, if_neg (not_lt.mpr hle)]
  · intro hgt
    simp only [_cache_get, hlook, if_pos hgt]
  · intro oracle vs st res st2 hst hkey hgt h
    refine get_simple_price_fetches oracle now ["BTC"] vs ttl st res st2 ?_
      ?_ h
    · rw [hst, ← hkey]
      simp only [_cache_get, hlook, if_pos hgt]
    · decide

/-- C3 witness: an entry stored at time 0 with ttl 30 is served at time 20
and popped at time 100. -/
theorem c3_witness :
    _cache_get [("k", ((0 : Int), Json.bool true))] 100 "k" 30 =
      (none, dremove [("k", ((0 : Int), Json.bool true))] "k") ∧
    _cache_get [("k", ((0 : Int), Json.bool true))] 20 "k" 30 =
      (some (Json.bool true), [("k", ((0 : Int), Json.bool true))]) :=
  ⟨(c3_cache_ttl_boundary [("k", ((0 : Int), Json.bool true))] "k" 0
      (Json.bool true) 100 30 rfl).2.1 (by decide),
   (c3_cache_ttl_boundary [("k", ((0 : Int), Json.bool true))] "k" 0
      (Json.bool true) 20 30 rfl).1 (by decide)⟩

/-- The provider body `{"bitcoin": {"usd": 41234}}` used for the C4 cache
round-trip. -/
def btcPriceResp : Json :=
  Json.obj [("bitcoin", Json.obj [("usd", Json.num 41234)])]

/-- State after one successful `get_simple_price(["BTC"], "usd")` call from
an empty cache at time 0: one logged request and one cache entry. -/
def stAfterBtc : St :=
  ⟨[("simple_price:bitcoin:usd", ((0 : Int), btcPriceResp))],
   [⟨"/simple/price",
     [("ids", Json.str "bitcoin"), ("vs_currencies", Json.str "usd")]⟩],
   []⟩

/-- C4: whenever a valid (non-expired) cache entry exists under the
computed key, `get_simple_price` returns without touching the network or
any state (`st2 = st`); concretely, two identical `get_simple_price(["BTC"],
"usd")` calls from an empty cache issue exactly one HTTP request, the
second being served from cache with the same result. -/
theorem c4_cache_hit_no_request (oracle : ℕ → HttpOutcome) (now : Int)
    (syms : List String) (vs : String) (ttl : Int) (st : St) (ts : Int)
    (c : Json) (res : List (String × Json)) (st2 : St)
    (h1 : dlookup st.cache (simple_price_cache_key syms vs) = some (ts, c))
    (h2 : now - ts ≤ ttl)
    (h3 : get_simple_price oracle now (.list syms) vs ttl st =
      .ok (res, st2)) :
    st2 = st ∧
    (get_simple_price (fun _ => .ok btcPriceResp) 0 (.list ["BTC"]) "usd" 30
        ⟨[], [], []⟩ = .ok ([("BTC", Json.num 41234)], stAfterBtc) ∧
     stAfterBtc.reqLog.length = 1 ∧
     get_simple_price (fun _ => .ok btcPriceResp) 0 (.list ["BTC"]) "usd" 30
        stAfterBtc = .ok ([("BTC", Json.num 41234)], stAfterBtc)) := by
  constructor
  · simp only [get_simple_price] at h3
    have hcg : _cache_get st.cache now (simple_price_cache_key syms vs) ttl =
        (some c, st.cache) := by
      simp only [_cache_get, h1, if_neg (not_lt.mpr h2)]
    simp only [hcg] at h3
    cases hm : mapME (priceEntryCached c (simple_price_mapping syms) vs)
        (simple_price_mapping syms) with
    | error e =>
      simp only [hm, Bind.bind, Except.bind] at h3
      exact Except.noConfusion h3
    | ok r =>
      simp only [hm, Bind.bind, Except.bind, pure, Except.pure,
        Except.ok.injEq, Prod.mk.injEq] at h3
      rw [← h3.2]
  · exact ⟨rfl, rfl, rfl⟩

/-- C4 witness: the second (cache-served) call at the concrete state. -/
theorem c4_witness :
    get_simple_price (fun _ => .ok btcPriceResp) 0 (.list ["BTC"]) "usd" 30
        stAfterBtc = .ok ([("BTC", Json.num 41234)], stAfterBtc) :=
  (c4_cache_hit_no_request (fun _ => .ok btcPriceResp) 0 ["BTC"] "usd" 30
    stAfterBtc 0 btcPriceResp [("BTC", Json.num 41234)] stAfterBtc rfl
    (by decide) rfl).2.2.2

/-- C7 counterexample: `["BTC", "bitcoin"]` and `["BTC"]` resolve to the
same SET of provider ids (`{bitcoin}`), with the same quote currency, yet
compute different cache keys — the key keeps duplicates, so it is a
function of the sorted list, not of the set. -/
theorem c7_counterexample :
    simple_price_ids ["BTC", "bitcoin"] = ["bitcoin", "bitcoin"] ∧
    simple_price_ids ["BTC"] = ["bitcoin"] ∧
    (simple_price_ids ["BTC", "bitcoin"]).dedup =
      (simple_price_ids ["BTC"]).dedup ∧
    simple_price_cache_key ["BTC", "bitcoin"] "usd" ≠
      simple_price_cache_key ["BTC"] "usd" := by
  refine ⟨rfl, rfl, by decide, by decide⟩

/-- C7 amended: the cache key is a function of the multiset of resolved ids
(sorted list with duplicates kept) plus the quote currency: inputs whose
resolved ids are permutations of each other — in particular permutations
of the symbol list itself — compute the same cache key. -/
theorem c7_key_permutation_invariant (l₁ l₂ : List String) (vs : String) :
    (List.Perm (simple_price_ids l₁) (simple_price_ids l₂) →
      simple_price_cache_key l₁ vs = simple_price_cache_key l₂ vs) ∧
    (List.Perm l₁ l₂ →
      simple_price_cache_key l₁ vs = simple_price_cache_key l₂ vs) := by
  constructor
  · intro h
    unfold simple_price_cache_key
    rw [pySorted_eq_of_perm h]
  · intro h
    have hids : List.Perm (simple_price_ids l₁) (simple_price_ids l₂) := by
      unfold simple_price_ids
      rw [resolve_ids_spec, resolve_ids_spec]
      simp only [List.nil_append]
      exact h.filterMap idOf
    unfold simple_price_cache_key
    rw [pySorted_eq_of_perm hids]

/-- C7 witness: two orderings of `["BTC", "ETH"]` share one cache key. -/
theorem c7_witness :
    simple_price_cache_key ["ETH", "BTC"] "usd" =
      simple_price_cache_key ["BTC", "ETH"] "usd" :=
  (c7_key_permutation_invariant ["ETH", "BTC"] ["BTC", "ETH"] "usd").2
    (by decide)

/-! ### Result-shape lemmas for `get_simple_price` -/

theorem priceEntryCached_fst (cached : Json)
    (mapping : List (String × Option String)) (vs : String)
    (p : String × Option String) (q : String × Json)
    (h : priceEntryCached cached mapping vs p = .ok q) : q.1 = p.1 := by
  unfold priceEntryCached at h
  cases hd : dlookup mapping (pyUpper p.1) with
  | none =>
    simp only [hd] at h
    exact Except.noConfusion h
  | some cid? =>
    cases cid? with
    | none =>
      simp only [hd] at h
      cases h; rfl
    | some cid =>
      simp only [hd] at h
      by_cases hc : cid = ""
      · rw [if_pos hc] at h
        cases h; rfl
      · rw [if_neg hc] at h
        cases hj1 : jget cached cid (Json.obj []) with
        | error e =>
          simp only [hj1, Bind.bind, Except.bind] at h
          exact Except.noConfusion h
        | ok inner =>
          simp only [hj1, Bind.bind, Except.bind] at h
          cases hj2 : jget inner vs Json.null with
          | error e =>
            simp only [hj2, Except.bind] at h
            exact Except.noConfusion h
          | ok v =>
            simp only [hj2, Except.bind, pure, Except.pure, Except.ok.injEq] at h
            rw [← h]

theorem priceEntryData_fst (data : Json) (vs : String)
    (p : String × Option String) (q : String × Json)
    (h : priceEntryData data vs p = .ok q) : q.1 = p.1 := by
  unfold priceEntryData at h
  cases hp : p.2 with
  | none =>
    simp only [hp] at h
    cases h; rfl
  | some cid =>
    simp only [hp] at h
    by_cases hc : cid = ""
    · rw [if_pos hc] at h
      cases h; rfl
    · rw [if_neg hc] at h
      cases hj1 : jget data cid Json.null with
      | error e =>
        simp only [hj1, Bind.bind, Except.bind] at h
        exact Except.noConfusion h
      | ok g =>
        simp only [hj1, Bind.bind, Except.bind] at h
        by_cases ht : truthy g = true
        · rw [if_pos ht] at h
          cases hj2 : jindex data cid with
          | error e =>
            simp only [hj2, Bind.bind, Except.bind] at h
            exact Except.noConfusion h
          | ok sub =>
            simp only [hj2, Bind.bind, Except.bind] at h
            cases hj3 : jcontains sub vs with
            | error e =>
              simp only [hj3, Except.bind] at h
              exact Except.noConfusion h
            | ok memb =>
              simp only [hj3, Bind.bind, Except.bind] at h
              by_cases hm : memb = true
              · rw [if_pos hm] at h
                cases hj4 : jindex sub vs with
                | error e =>
                  simp only [hj4, Bind.bind, Except.bind] at h
                  exact Except.noConfusion h
                | ok v =>
                  simp only [hj4, Bind.bind, Except.bind, pure, Except.pure,
                    Except.ok.injEq] at h
                  rw [← h]
              · rw [if_neg hm] at h
                simp only [pure, Except.pure, Except.ok.injEq] at h
                rw [← h]
        · rw [if_neg ht] at h
          simp only [pure, Except.pure, Except.ok.injEq] at h
          rw [← h]

theorem priceEntryData_none (data : Json) (vs : String)
    (p : String × Option String) (hp : p.2 = none) :
    priceEntryData data vs p = .ok (p.1, Json.null) := by
  unfold priceEntryData
  rw [hp]

theorem priceEntryCached_none (cached : Json)
    (mapping : List (String × Option String)) (vs : String)
    (p : String × Option String)
    (hd : dlookup mapping (pyUpper p.1) = some none) :
    priceEntryCached cached mapping vs p = .ok (p.1, Json.null) := by
  unfold priceEntryCached
  rw [hd]

theorem requestAttempts_reqLog_items (oracle : ℕ → HttpOutcome)
    (path : String) (params : List (String × Json)) (retries : ℕ)
    (backoff : ℚ) :
    ∀ (l : List ℕ) (st : St) (req : Request),
      req ∈ (requestAttempts oracle path params retries backoff l st).2.reqLog →
      req ∈ st.reqLog ∨ req = ⟨path, params⟩ := by
  intro l
  induction l with
  | nil => intro st req h; exact Or.inl h
  | cons a rest ih =>
    intro st req h
    rw [requestAttempts_cons] at h
    cases ho : oracle st.reqLog.length with
    | ok body =>
      simp only [ho] at h
      simp only [List.mem_append, List.mem_singleton] at h
      tauto
    | err e =>
      simp only [ho] at h
      by_cases ha : a = retries
      · rw [if_pos ha] at h
        simp only [List.mem_append, List.mem_singleton] at h
        tauto
      · rw [if_neg ha] at h
        rcases ih _ req h with h2 | h2
        · simp only [List.mem_append, List.mem_singleton] at h2
          tauto
        · exact Or.inr h2

/-- Mapping facts at the empty accumulator: keys are uppercase-fixed,
duplicate-free, and a `None`-resolved member is looked up as `None`. -/
theorem simple_price_mapping_nodup (syms : List String) :
    ((simple_price_mapping syms).map Prod.fst).Nodup :=
  resolve_keys_nodup syms [] [] List.nodup_nil

theorem simple_price_mapping_upper_fixed (syms : List String) :
    ∀ k ∈ (simple_price_mapping syms).map Prod.fst, pyUpper k = k :=
  resolve_upper_fixed syms [] [] (by intro k hk; simp at hk)

/-- Core shape of any non-raising `get_simple_price` result: its keys are
exactly the mapping's keys, `None`-resolved mapping entries appear as
`None` results, and every logged request is an old one or the single batch
request with exactly the resolved ids. -/
theorem get_simple_price_core (oracle : ℕ → HttpOutcome) (now : Int)
    (syms : List String) (vs : String) (ttl : Int) (st : St)
    (res : List (String × Json)) (st2 : St)
    (h : get_simple_price oracle now (.list syms) vs ttl st = .ok (res, st2)) :
    res.map Prod.fst = (simple_price_mapping syms).map Prod.fst ∧
    (∀ p ∈ simple_price_mapping syms, p.2 = none →
      (p.1, Json.null) ∈ res) ∧
    (∀ req ∈ st2.reqLog, req ∈ st.reqLog ∨
      (req.path = "/simple/price" ∧
       req.params = [("ids", Json.str (String.intercalate ","
         (simple_price_ids syms))),
         ("vs_currencies", Json.str vs)])) := by
  have hallNone : ∀ st3 : St,
      (Except.ok (allNone (simple_price_mapping syms), st3) :
        Except String (List (String × Json) × St)) = .ok (res, st2) →
      res.map Prod.fst = (simple_price_mapping syms).map Prod.fst ∧
      (∀ p ∈ simple_price_mapping syms, p.2 = none →
        (p.1, Json.null) ∈ res) ∧ st3 = st2 := by
    intro st3 hh
    simp only [Except.ok.injEq, Prod.mk.injEq] at hh
    refine ⟨?_, ?_, hh.2⟩
    · rw [← hh.1]
      simp [allNone, List.map_map, Function.comp_def]
    · intro p hp _
      rw [← hh.1]
      unfold allNone
      exact List.mem_map_of_mem (fun p => (p.1, Json.null)) hp
  have hmapData : ∀ (data : Json) (r : List (String × Json)),
      mapME (priceEntryData data vs) (simple_price_mapping syms) = .ok r →
      r.map Prod.fst = (simple_price_mapping syms).map Prod.fst ∧
      (∀ p ∈ simple_price_mapping syms, p.2 = none →
        (p.1, Json.null) ∈ r) := by
    intro data r hm
    refine ⟨mapME_ok_fst (priceEntryData_fst data vs) hm, ?_⟩
    intro p hp hnone
    exact mapME_ok_mem hm hp (priceEntryData_none data vs p hnone)
  have hmapCached : ∀ (cached : Json) (r : List (String × Json)),
      mapME (priceEntryCached cached (simple_price_mapping syms) vs)
        (simple_price_mapping syms) = .ok r →
      r.map Prod.fst = (simple_price_mapping syms).map Prod.fst ∧
      (∀ p ∈ simple_price_mapping syms, p.2 = none →
        (p.1, Json.null) ∈ r) := by
    intro cached r hm
    refine ⟨mapME_ok_fst (priceEntryCached_fst cached _ vs) hm, ?_⟩
    intro p hp hnone
    have hdl : dlookup (simple_price_mapping syms) (pyUpper p.1) =
        some p.2 := by
      have hfix : pyUpper p.1 = p.1 :=
        simple_price_mapping_upper_fixed syms p.1
          (List.mem_map_of_mem Prod.fst hp)
      rw [hfix]
      have hp2 : p = (p.1, p.2) := rfl
      rw [hp2] at hp
      exact mem_dlookup hp (simple_price_mapping_nodup syms)
    rw [hnone] at hdl
    exact mapME_ok_mem hm hp (priceEntryCached_none cached _ vs p hdl)
  simp only [get_simple_price] at h
  cases hcg : (_cache_get st.cache now (simple_price_cache_key syms vs)
      ttl).1 with
  | some cached =>
    simp only [hcg] at h
    cases hm : mapME (priceEntryCached cached (simple_price_mapping syms) vs)
        (simple_price_mapping syms) with
    | error e =>
      simp only [hm, Bind.bind, Except.bind] at h
      exact Except.noConfusion h
    | ok r =>
      simp only [hm, Bind.bind, Except.bind, pure, Except.pure,
        Except.ok.injEq, Prod.mk.injEq] at h
      obtain ⟨hr, hst⟩ := h
      subst hr
      rcases hmapCached cached r hm with ⟨h1, h2⟩
      refine ⟨h1, h2, ?_⟩
      intro req hreq
      rw [← hst] at hreq
      exact Or.inl hreq
  | none =>
    simp only [hcg] at h
    cases hids : simple_price_ids syms with
    | nil =>
      simp only [hids] at h
      rcases hallNone _ h with ⟨h1, h2, h3⟩
      refine ⟨h1, h2, ?_⟩
      intro req hreq
      rw [← h3] at hreq
      exact Or.inl hreq
    | cons i irest =>
      simp only [hids] at h
      have hreqs : ∀ req ∈ (_request oracle "/simple/price"
          [("ids", Json.str (String.intercalate "," (i :: irest))),
           ("vs_currencies", Json.str vs)] 2 (4/5)
          { st with cache := (_cache_get st.cache now
              (simple_price_cache_key syms vs) ttl).2 }).2.reqLog,
          req ∈ st.reqLog ∨
          (req.path = "/simple/price" ∧ req.params =
            [("ids", Json.str (String.intercalate "," (i :: irest))),
             ("vs_currencies", Json.str vs)]) := by
        intro req hreq
        unfold _request at hreq
        rcases requestAttempts_reqLog_items oracle "/simple/price" _ 2
          (4/5) (List.range (2 + 1)) _ req hreq with h2 | h2
        · exact Or.inl h2
        · subst h2
          exact Or.inr ⟨rfl, rfl⟩
      cases hrq : (_request oracle "/simple/price"
          [("ids", Json.str (String.intercalate "," (i :: irest))),
           ("vs_currencies", Json.str vs)] 2 (4/5)
          { st with cache := (_cache_get st.cache now
              (simple_price_cache_key syms vs) ttl).2 }).1 with
      | none =>
        simp only [hrq] at h
        rcases hallNone _ h with ⟨h1, h2, h3⟩
        refine ⟨h1, h2, ?_⟩
        intro req hreq
        rw [← h3] at hreq
        exact hreqs req hreq
      | some data =>
        simp only [hrq] at h
        by_cases ht : truthy data = true
        · simp only [ht, if_true] at h
          cases hjc : jcontains data "error" with
          | error e =>
            simp only [hjc, Bind.bind, Except.bind] at h
            exact Except.noConfusion h
          | ok b =>
            simp only [hjc, Bind.bind, Except.bind] at h
            by_cases hb : b = true
            · simp only [hb, if_true, pure, Except.pure] at h
              rcases hallNone _ h with ⟨h1, h2, h3⟩
              refine ⟨h1, h2, ?_⟩
              intro req hreq
              rw [← h3] at hreq
              exact hreqs req hreq
            · simp only [Bool.not_eq_true] at hb
              simp only [hb, Bool.false_eq_true, if_false] at h
              cases hm : mapME (priceEntryData data vs)
                  (simple_price_mapping syms) with
              | error e =>
                simp only [hm] at h
                exact Except.noConfusion h
              | ok r =>
                simp only [hm, pure, Except.pure, Except.ok.injEq,
                  Prod.mk.injEq] at h
                obtain ⟨hr, hst⟩ := h
                subst hr
                rcases hmapData data r hm with ⟨h1, h2⟩
                refine ⟨h1, h2, ?_⟩
                intro req hreq
                rw [← hst] at hreq
                exact hreqs req hreq
        · simp only [Bool.not_eq_true] at ht
          simp only [ht, Bool.false_eq_true, if_false] at h
          rcases hallNone _ h with ⟨h1, h2, h3⟩
          refine ⟨h1, h2, ?_⟩
          intro req hreq
          rw [← h3] at hreq
          exact hreqs req hreq

/-- C2 counterexample: `get_simple_price(["nope"])` (no network involved:
the symbol is unresolvable) returns its sole entry under the UPPERCASED
key `"NOPE"`, not under the original symbol `"nope"` as the claim states. -/
theorem c2_counterexample :
    get_simple_price (fun _ => .err "down") 0 (.list ["nope"]) "usd" 30
        ⟨[], [], []⟩ = .ok ([("NOPE", Json.null)], ⟨[], [], []⟩) ∧
    List.map Prod.fst [(("NOPE" : String), Json.null)] ≠ ["nope"] :=
  ⟨rfl, by decide⟩

/-- C2 amended: every non-raising `get_simple_price` result has exactly one
entry per distinct UPPERCASED requested symbol (keyed by the uppercased
symbol, not the original); symbols that `symbol_to_id` does not resolve map
to `None` regardless of network outcome; every id in the batch list is the
resolution of some requested symbol; and any request this call issues is
the single batch request whose `ids` parameter joins exactly the resolved
ids. -/
theorem c2_result_shape (oracle : ℕ → HttpOutcome) (now : Int)
    (syms : List String) (vs : String) (ttl : Int) (st : St)
    (res : List (String × Json)) (st2 : St)
    (h : get_simple_price oracle now (.list syms) vs ttl st = .ok (res, st2)) :
    (res.map Prod.fst).Nodup ∧
    (∀ k, k ∈ res.map Prod.fst ↔ k ∈ syms.map pyUpper) ∧
    (∀ sym ∈ syms, symbol_to_id sym = none → (pyUpper sym, Json.null) ∈ res) ∧
    (∀ id ∈ simple_price_ids syms, ∃ sym ∈ syms, symbol_to_id sym = some id) ∧
    (∀ req ∈ st2.reqLog, req ∈ st.reqLog ∨
      (req.path = "/simple/price" ∧
       req.params = [("ids", Json.str (String.intercalate ","
         (simple_price_ids syms))), ("vs_currencies", Json.str vs)])) := by
  obtain ⟨h1, h2, h3⟩ := get_simple_price_core oracle now syms vs ttl st res
    st2 h
  refine ⟨?_, ?_, ?_, ?_, h3⟩
  · rw [h1]
    exact simple_price_mapping_nodup syms
  · intro k
    rw [h1]
    have hh := resolve_keys_mem syms [] [] k
    simp only [List.map_nil, List.not_mem_nil, false_or] at hh
    exact hh
  · intro sym hsym hnone
    have hdl : dlookup (simple_price_mapping syms) (pyUpper sym) =
        some none :=
      resolve_lookup_none syms [] [] sym hnone (Or.inr hsym)
    exact h2 _ (dlookup_mem hdl) rfl
  · intro id hid
    have hspec : simple_price_ids syms = syms.filterMap idOf := by
      unfold simple_price_ids
      rw [resolve_ids_spec]
      exact List.nil_append _
    rw [hspec] at hid
    rcases List.mem_filterMap.mp hid with ⟨sym, hsym, hidof⟩
    refine ⟨sym, hsym, ?_⟩
    cases hs : symbol_to_id sym with
    | none =>
      simp only [idOf, hs] at hidof
      exact Option.noConfusion hidof
    | some cid =>
      simp only [idOf, hs] at hidof
      by_cases hc : cid = ""
      · rw [if_pos hc] at hidof
        exact Option.noConfusion hidof
      · rw [if_neg hc] at hidof
        rw [hidof]

/-- C2 witness: two unresolvable symbols come back as two uppercased keys,
each `None`, with no duplicate entries. -/
theorem c2_witness :
    (List.map Prod.fst [(("NOPE" : String), Json.null),
      ("ALSONOT", Json.null)]).Nodup :=
  (c2_result_shape (fun _ => .err "x") 0 ["nope", "AlsoNot"] "usd" 30
    ⟨[], [], []⟩ [("NOPE", Json.null), ("ALSONOT", Json.null)] ⟨[], [], []⟩
    rfl).1

/-! ### C8: size bounds on `get_coin_info` results -/

/-- The C8 bound: if the record has a description it is at most 800
characters (or items), and if it has a homepage link list it is at most 3
entries. -/
def boundedInfo (out : Json) : Prop :=
  (∀ kvs s, out = Json.obj kvs →
    dlookup kvs "description" = some (Json.str s) → s.data.length ≤ 800) ∧
  (∀ kvs l, out = Json.obj kvs →
    dlookup kvs "description" = some (Json.arr l) → l.length ≤ 800) ∧
  (∀ kvs l, out = Json.obj kvs →
    dlookup kvs "homepage" = some (Json.arr l) → l.length ≤ 3) ∧
  (∀ kvs s, out = Json.obj kvs →
    dlookup kvs "homepage" = some (Json.str s) → s.data.length ≤ 3)

theorem pySlice_bounds {j out : Json} {n : ℕ} (h : pySlice j n = .ok out) :
    (∀ s, out = Json.str s → s.data.length ≤ n) ∧
    (∀ l, out = Json.arr l → l.length ≤ n) := by
  cases j with
  | str s0 =>
    simp only [pySlice, Except.ok.injEq] at h
    subst h
    constructor
    · intro s hs
      cases hs
      calc (List.take n s0.data).length = min n s0.data.length :=
            List.length_take n s0.data
        _ ≤ n := Nat.min_le_left _ _
    · intro l hl
      exact Json.noConfusion hl
  | arr xs =>
    simp only [pySlice, Except.ok.injEq] at h
    subst h
    constructor
    · intro s hs
      exact Json.noConfusion hs
    · intro l hl
      cases hl
      calc (List.take n xs).length = min n xs.length := List.length_take n xs
        _ ≤ n := Nat.min_le_left _ _
  | null => exact Except.noConfusion h
  | bool b => exact Except.noConfusion h
  | num q => exact Except.noConfusion h
  | obj kvs => exact Except.noConfusion h

theorem boundedInfo_single_error (v : Json) :
    boundedInfo (Json.obj [("error", v)]) := by
  refine ⟨?_, ?_, ?_, ?_⟩ <;>
    · intro kvs x hout hdl
      rw [show Json.obj [("error", v)] = Json.obj kvs ↔
          [("error", v)] = kvs from by
        constructor
        · intro hh; exact (Json.obj.injEq _ _).mp hh
        · intro hh; rw [hh]] at hout
      subst hout
      simp [dlookup] at hdl

theorem boundedInfo_errorReturn (data? : Option Json) :
    boundedInfo (errorReturn data?) := by
  unfold errorReturn
  cases data? with
  | none => exact boundedInfo_single_error _
  | some d =>
    cases d with
    | obj kvs => exact boundedInfo_single_error _
    | null => exact boundedInfo_single_error _
    | bool b => exact boundedInfo_single_error _
    | num q => exact boundedInfo_single_error _
    | str s => exact boundedInfo_single_error _
    | arr xs => exact boundedInfo_single_error _

theorem boundedInfo_success (idv symv namev dsc3 lnk3 : Json)
    (hd : (∀ s, dsc3 = Json.str s → s.data.length ≤ 800) ∧
          (∀ l, dsc3 = Json.arr l → l.length ≤ 800))
    (hl : (∀ s, lnk3 = Json.str s → s.data.length ≤ 3) ∧
          (∀ l, lnk3 = Json.arr l → l.length ≤ 3)) :
    boundedInfo (Json.obj [("id", idv), ("symbol", symv), ("name", namev),
      ("description", dsc3), ("homepage", lnk3)]) := by
  have hdesc : dlookup [("id", idv), ("symbol", symv), ("name", namev),
      ("description", dsc3), ("homepage", lnk3)] "description" =
      some dsc3 := rfl
  have hhome : dlookup [("id", idv), ("symbol", symv), ("name", namev),
      ("description", dsc3), ("homepage", lnk3)] "homepage" =
      some lnk3 := rfl
  refine ⟨?_, ?_, ?_, ?_⟩
  · intro kvs s hout hdl
    obtain rfl := (Json.obj.injEq _ _).mp hout.symm
    rw [hdesc, Option.some.injEq] at hdl
    exact hd.1 s hdl
  · intro kvs l hout hdl
    obtain rfl := (Json.obj.injEq _ _).mp hout.symm
    rw [hdesc, Option.some.injEq] at hdl
    exact hd.2 l hdl
  · intro kvs l hout hdl
    obtain rfl := (Json.obj.injEq _ _).mp hout.symm
    rw [hhome, Option.some.injEq] at hdl
    exact hl.2 l hdl
  · intro kvs s hout hdl
    obtain rfl := (Json.obj.injEq _ _).mp hout.symm
    rw [hhome, Option.some.injEq] at hdl
    exact hl.1 s hdl

theorem coin_info_fetch_bounds (oracle : ℕ → HttpOutcome) (now : Int)
    (coin_id cache_key : String) (st : St) (out : Json) (st2 : St)
    (h : coin_info_fetch oracle now coin_id cache_key st = .ok (out, st2)) :
    boundedInfo out := by
  unfold coin_info_fetch at h
  cases hrq : (_request oracle ("/coins/" ++ coin_id)
      [("localization", Json.str "false"), ("tickers", Json.str "false"),
       ("market_data", Json.str "false"),
       ("community_data", Json.str "false"),
       ("developer_data", Json.str "false"),
       ("sparkline", Json.str "false")] 2 (4/5) st).1 with
  | none =>
    simp only [hrq, respFailed, Bind.bind, Except.bind, if_true,
      Except.ok.injEq, Prod.mk.injEq] at h
    rw [← h.1]
    exact boundedInfo_errorReturn none
  | some data =>
    simp only [hrq] at h
    cases hrf : respFailed (some data) with
    | error e =>
      simp only [hrf, Bind.bind, Except.bind] at h
      exact Except.noConfusion h
    | ok failed =>
      simp only [hrf, Bind.bind, Except.bind] at h
      by_cases hf : failed = true
      · simp only [hf, if_true, Except.ok.injEq, Prod.mk.injEq] at h
        rw [← h.1]
        exact boundedInfo_errorReturn (some data)
      · simp only [Bool.not_eq_true] at hf
        simp only [hf, Bool.false_eq_true, if_false] at h
        cases h1 : jget data "id" Json.null with
        | error e =>
          simp only [h1, Bind.bind, Except.bind] at h
          exact Except.noConfusion h
        | ok idv =>
        simp only [h1, Bind.bind, Except.bind] at h
        cases h2 : jget data "symbol" Json.null with
        | error e =>
          simp only [h2, Except.bind] at h
          exact Except.noConfusion h
        | ok symv =>
        simp only [h2, Except.bind] at h
        cases h3 : jget data "name" Json.null with
        | error e =>
          simp only [h3, Except.bind] at h
          exact Except.noConfusion h
        | ok namev =>
        simp only [h3, Except.bind] at h
        cases h4 : jget data "description" Json.null with
        | error e =>
          simp only [h4, Except.bind] at h
          exact Except.noConfusion h
        | ok dsc =>
        simp only [h4, Except.bind] at h
        cases h5 : jget (if truthy dsc then dsc else Json.obj []) "en"
            (Json.str "") with
        | error e =>
          simp only [h5, Except.bind] at h
          exact Except.noConfusion h
        | ok dsc2 =>
        simp only [h5, Except.bind] at h
        cases h6 : pySlice dsc2 800 with
        | error e =>
          simp only [h6, Except.bind] at h
          exact Except.noConfusion h
        | ok dsc3 =>
        simp only [h6, Except.bind] at h
        cases h7 : jget data "links" Json.null with
        | error e =>
          simp only [h7, Except.bind] at h
          exact Except.noConfusion h
        | ok lnk =>
        simp only [h7, Except.bind] at h
        cases h8 : jget (if truthy lnk then lnk else Json.obj []) "homepage"
            (Json.arr []) with
        | error e =>
          simp only [h8, Except.bind] at h
          exact Except.noConfusion h
        | ok lnk2 =>
        simp only [h8, Except.bind] at h
        cases h9 : pySlice lnk2 3 with
        | error e =>
          simp only [h9, Except.bind] at h
          exact Except.noConfusion h
        | ok lnk3 =>
        simp only [h9, Except.bind, pure, Except.pure, Except.ok.injEq,
          Prod.mk.injEq] at h
        rw [← h.1]
        exact boundedInfo_success idv symv namev dsc3 lnk3
          (pySlice_bounds h6) (pySlice_bounds h9)

/-- C8: from a cold cache, whatever JSON the provider returns, a record
returned by `get_coin_info` has its description capped at 800 characters
and its homepage link list capped at 3 entries. -/
theorem c8_coin_info_bounds (oracle : ℕ → HttpOutcome) (now : Int)
    (symbol : String) (ttl : Int) (rl : List Request) (sl : List ℚ)
    (out : Json) (st2 : St)
    (h : get_coin_info oracle now symbol ttl ⟨[], rl, sl⟩ =
      .ok (out, st2)) :
    boundedInfo out := by
  unfold get_coin_info at h
  cases hs : symbol_to_id symbol with
  | none =>
    simp only [hs, Except.ok.injEq, Prod.mk.injEq] at h
    rw [← h.1]
    exact boundedInfo_single_error _
  | some coin_id =>
    simp only [hs] at h
    by_cases hc : coin_id = ""
    · rw [if_pos hc] at h
      simp only [Except.ok.injEq, Prod.mk.injEq] at h
      rw [← h.1]
      exact boundedInfo_single_error _
    · rw [if_neg hc] at h
      have hcg : _cache_get (⟨[], rl, sl⟩ : St).cache now
          ("coin_info:" ++ coin_id) ttl = (none, []) := rfl
      simp only [hcg] at h
      exact coin_info_fetch_bounds oracle now coin_id
        ("coin_info:" ++ coin_id) _ out st2 h

/-- A provider record whose description has 900 characters and whose
homepage list has 5 links. -/
def infoRespLong : Json :=
  Json.obj [("id", Json.str "bitcoin"), ("symbol", Json.str "btc"),
            ("name", Json.str "Bitcoin"),
            ("description", Json.obj [("en",
              Json.str ⟨List.replicate 900 'a'⟩)]),
            ("links", Json.obj [("homepage", Json.arr
              [Json.str "h1", Json.str "h2", Json.str "h3", Json.str "h4",
               Json.str "h5"])])]

/-- The record `get_coin_info` builds from `infoRespLong`: description cut
to 800 characters, homepage cut to 3 links. -/
def infoOutLong : Json :=
  Json.obj [("id", Json.str "bitcoin"), ("symbol", Json.str "btc"),
            ("name", Json.str "Bitcoin"),
            ("description", Json.str ⟨List.replicate 800 'a'⟩),
            ("homepage", Json.arr [Json.str "h1", Json.str "h2",
              Json.str "h3"])]

set_option maxRecDepth 100000 in
/-- C8 witness: the concrete oversized response is truncated to the caps. -/
theorem c8_witness :
    (String.mk (List.replicate 800 'a')).data.length ≤ 800 ∧
    ([Json.str "h1", Json.str "h2", Json.str "h3"] : List Json).length ≤ 3 := by
  have hb := c8_coin_info_bounds (fun _ => .ok infoRespLong) 0 "BTC" 30 [] []
    infoOutLong ⟨[("coin_info:bitcoin", ((0 : Int), infoOutLong))],
      [⟨"/coins/bitcoin", [("localization", Json.str "false"),
        ("tickers", Json.str "false"), ("market_data", Json.str "false"),
        ("community_data", Json.str "false"),
        ("developer_data", Json.str "false"),
        ("sparkline", Json.str "false")]⟩], []⟩ rfl
  exact ⟨hb.1 _ _ rfl rfl, hb.2.2.1 _ _ rfl rfl⟩

/-! ### C9: cache writes happen only on the success path -/

/-- After any cache read, the cache is unchanged or has lazily lost the
queried key. -/
theorem cache_get_snd (cache : List (String × (Int × Json))) (now : Int)
    (key : String) (ttl : Int) :
    (_cache_get cache now key ttl).2 = cache ∨
    (_cache_get cache now key ttl).2 = dremove cache key := by
  unfold _cache_get
  cases hd : dlookup cache key with
  | none => exact Or.inl rfl
  | some p =>
    rcases p with ⟨ts, data⟩
    by_cases hgt : now - ts > ttl
    · simp only [if_pos hgt]
      exact Or.inr trivial
    · simp only [if_neg hgt]
      exact Or.inl trivial

theorem jcontains_error_of_errObj {d : Json} (h : isErrObj d = true) :
    jcontains d "error" = .ok true := by
  cases d with
  | obj kvs => simp only [jcontains, isErrObj] at h ⊢; rw [h]
  | null => simp [isErrObj] at h
  | bool b => simp [isErrObj] at h
  | num q => simp [isErrObj] at h
  | str s => simp [isErrObj] at h
  | arr xs => simp [isErrObj] at h

/-- Under a failure-like transport, `_request` (as the four operations call
it) yields a failure-classified body and leaves the cache alone. -/
theorem request_faily (oracle : ℕ → HttpOutcome)
    (hf : ∀ n, outcomeFaily (oracle n) = true) (path : String)
    (params : List (String × Json)) (st : St) :
    ∃ d, (_request oracle path params 2 (4/5) st).1 = some d ∧
      failyJson d = true ∧
      (_request oracle path params 2 (4/5) st).2.cache = st.cache := by
  have h30 : List.range (2 + 1) = List.range' 0 (2 + 1) :=
    List.range_eq_range' _
  obtain ⟨d, st2, heq, hfd, hc⟩ :=
    requestAttempts_faily oracle hf path params 2 (4/5) 2 0 st rfl
  refine ⟨d, ?_, hfd, ?_⟩
  · unfold _request
    rw [h30, heq]
  · unfold _request
    rw [h30, heq]
    exact hc

/-- The cache after the call is the cache before it, except possibly for
one lazily removed (expired) entry. -/
def cachePreserved (st st2 : St) : Prop :=
  st2.cache = st.cache ∨ ∃ k, st2.cache = dremove st.cache k

theorem get_simple_price_faily_cache (oracle : ℕ → HttpOutcome)
    (hf : ∀ n, outcomeFaily (oracle n) = true) (now : Int)
    (syms : List String) (vs : String) (ttl : Int) (st : St)
    (res : List (String × Json)) (st2 : St)
    (h : get_simple_price oracle now (.list syms) vs ttl st =
      .ok (res, st2)) : cachePreserved st st2 := by
  have hsnd := cache_get_snd st.cache now (simple_price_cache_key syms vs)
    ttl
  have hpres : ∀ st3 : St,
      st3.cache = (_cache_get st.cache now
        (simple_price_cache_key syms vs) ttl).2 →
      st3 = st2 → cachePreserved st st2 := by
    intro st3 hc3 he3
    rw [← he3]
    unfold cachePreserved
    rw [hc3]
    rcases hsnd with h2 | h2
    · exact Or.inl h2
    · exact Or.inr ⟨_, h2⟩
  simp only [get_simple_price] at h
  cases hcg : (_cache_get st.cache now (simple_price_cache_key syms vs)
      ttl).1 with
  | some cached =>
    simp only [hcg] at h
    cases hm : mapME (priceEntryCached cached (simple_price_mapping syms) vs)
        (simple_price_mapping syms) with
    | error e =>
      simp only [hm, Bind.bind, Except.bind] at h
      exact Except.noConfusion h
    | ok r =>
      simp only [hm, Bind.bind, Except.bind, pure, Except.pure,
        Except.ok.injEq, Prod.mk.injEq] at h
      exact hpres _ rfl h.2
  | none =>
    simp only [hcg] at h
    cases hids : simple_price_ids syms with
    | nil =>
      simp only [hids, Except.ok.injEq, Prod.mk.injEq] at h
      exact hpres _ rfl h.2
    | cons i irest =>
      simp only [hids] at h
      obtain ⟨d, hd1, hfd, hd2⟩ := request_faily oracle hf "/simple/price"
        [("ids", Json.str (String.intercalate "," (i :: irest))),
         ("vs_currencies", Json.str vs)]
        { st with cache := (_cache_get st.cache now
            (simple_price_cache_key syms vs) ttl).2 }
      simp only [hd1] at h
      by_cases ht : truthy d = true
      · have herr : isErrObj d = true := by
          unfold failyJson at hfd
          rw [ht] at hfd
          simpa using hfd
        simp only [ht, if_true, jcontains_error_of_errObj herr, Bind.bind,
          Except.bind, pure, Except.pure, Except.ok.injEq,
          Prod.mk.injEq] at h
        refine hpres _ ?_ h.2
        exact hd2
      · simp only [Bool.not_eq_true] at ht
        simp only [ht, Bool.false_eq_true, if_false, Except.ok.injEq,
          Prod.mk.injEq] at h
        refine hpres _ ?_ h.2
        exact hd2

theorem cachePreserved_of_snd {st st2 : St} (key : String) (now ttl : Int)
    (hcc : st2.cache = (_cache_get st.cache now key ttl).2) :
    cachePreserved st st2 := by
  unfold cachePreserved
  rw [hcc]
  rcases cache_get_snd st.cache now key ttl with h2 | h2
  · exact Or.inl h2
  · exact Or.inr ⟨key, h2⟩

theorem market_data_fetch_faily_cache (oracle : ℕ → HttpOutcome)
    (hf : ∀ n, outcomeFaily (oracle n) = true) (now : Int)
    (coin_id vs cache_key : String) (st : St) (out : Json) (st2 : St)
    (h : market_data_fetch oracle now coin_id vs cache_key st =
      .ok (out, st2)) : st2.cache = st.cache := by
  unfold market_data_fetch at h
  obtain ⟨d, hd1, hfd, hd2⟩ := request_faily oracle hf "/coins/markets"
    [("vs_currency", Json.str vs), ("ids", Json.str coin_id),
     ("order", Json.str "market_cap_desc"), ("per_page", Json.num 1),
     ("page", Json.num 1), ("sparkline", Json.bool false)] st
  simp only [hd1, respFailed_of_faily hfd, Bind.bind, Except.bind,
    eq_self_iff_true, if_true, Except.ok.injEq, Prod.mk.injEq] at h
  rw [← h.2]
  exact hd2

theorem coin_info_fetch_faily_cache (oracle : ℕ → HttpOutcome)
    (hf : ∀ n, outcomeFaily (oracle n) = true) (now : Int)
    (coin_id cache_key : String) (st : St) (out : Json) (st2 : St)
    (h : coin_info_fetch oracle now coin_id cache_key st = .ok (out, st2)) :
    st2.cache = st.cache := by
  unfold coin_info_fetch at h
  obtain ⟨d, hd1, hfd, hd2⟩ := request_faily oracle hf ("/coins/" ++ coin_id)
    [("localization", Json.str "false"), ("tickers", Json.str "false"),
     ("market_data", Json.str "false"), ("community_data", Json.str "false"),
     ("developer_data", Json.str "false"), ("sparkline", Json.str "false")]
    st
  simp only [hd1, respFailed_of_faily hfd, Bind.bind, Except.bind,
    eq_self_iff_true, if_true, Except.ok.injEq, Prod.mk.injEq] at h
  rw [← h.2]
  exact hd2

theorem search_fetch_faily_cache (oracle : ℕ → HttpOutcome)
    (hf : ∀ n, outcomeFaily (oracle n) = true) (now : Int) (query : String)
    (limit : ℕ) (cache_key : String) (st : St) (out : Json) (st2 : St)
    (h : search_fetch oracle now query limit cache_key st = .ok (out, st2)) :
    st2.cache = st.cache := by
  unfold search_fetch at h
  obtain ⟨d, hd1, hfd, hd2⟩ := request_faily oracle hf "/search"
    [("query", Json.str query)] st
  simp only [hd1, respFailed_of_faily hfd, Bind.bind, Except.bind,
    eq_self_iff_true, if_true, Except.ok.injEq, Prod.mk.injEq] at h
  rw [← h.2]
  exact hd2

theorem get_market_data_faily_cache (oracle : ℕ → HttpOutcome)
    (hf : ∀ n, outcomeFaily (oracle n) = true) (now : Int)
    (sym vs : String) (ttl : Int) (st : St) (out : Json) (st2 : St)
    (h : get_market_data oracle now sym vs ttl st = .ok (out, st2)) :
    cachePreserved st st2 := by
  unfold get_market_data at h
  cases hs : symbol_to_id sym with
  | none =>
    simp only [hs, Except.ok.injEq, Prod.mk.injEq] at h
    exact Or.inl (by rw [← h.2])
  | some coin_id =>
    simp only [hs] at h
    by_cases hc : coin_id = ""
    · rw [if_pos hc] at h
      simp only [Except.ok.injEq, Prod.mk.injEq] at h
      exact Or.inl (by rw [← h.2])
    · rw [if_neg hc] at h
      cases hcg : (_cache_get st.cache now
          ("market_data:" ++ coin_id ++ ":" ++ vs) ttl).1 with
      | some c =>
        simp only [hcg] at h
        by_cases htc : truthy c = true
        · simp only [htc, if_true, Except.ok.injEq, Prod.mk.injEq] at h
          refine cachePreserved_of_snd
            ("market_data:" ++ coin_id ++ ":" ++ vs) now ttl ?_
          rw [← h.2]
        · simp only [Bool.not_eq_true] at htc
          simp only [htc, Bool.false_eq_true, if_false] at h
          exact cachePreserved_of_snd
            ("market_data:" ++ coin_id ++ ":" ++ vs) now ttl
            (market_data_fetch_faily_cache oracle hf now coin_id vs _ _ out
              st2 h)
      | none =>
        simp only [hcg] at h
        exact cachePreserved_of_snd
          ("market_data:" ++ coin_id ++ ":" ++ vs) now ttl
          (market_data_fetch_faily_cache oracle hf now coin_id vs _ _ out
            st2 h)

theorem get_coin_info_faily_cache (oracle : ℕ → HttpOutcome)
    (hf : ∀ n, outcomeFaily (oracle n) = true) (now : Int) (sym : String)
    (ttl : Int) (st : St) (out : Json) (st2 : St)
    (h : get_coin_info oracle now sym ttl st = .ok (out, st2)) :
    cachePreserved st st2 := by
  unfold get_coin_info at h
  cases hs : symbol_to_id sym with
  | none =>
    simp only [hs, Except.ok.injEq, Prod.mk.injEq] at h
    exact Or.inl (by rw [← h.2])
  | some coin_id =>
    simp only [hs] at h
    by_cases hc : coin_id = ""
    · rw [if_pos hc] at h
      simp only [Except.ok.injEq, Prod.mk.injEq] at h
      exact Or.inl (by rw [← h.2])
    · rw [if_neg hc] at h
      cases hcg : (_cache_get st.cache now ("coin_info:" ++ coin_id)
          ttl).1 with
      | some c =>
        simp only [hcg] at h
        by_cases htc : truthy c = true
        · simp only [htc, if_true, Except.ok.injEq, Prod.mk.injEq] at h
          refine cachePreserved_of_snd ("coin_info:" ++ coin_id) now ttl ?_
          rw [← h.2]
        · simp only [Bool.not_eq_true] at htc
          simp only [htc, Bool.false_eq_true, if_false] at h
          exact cachePreserved_of_snd ("coin_info:" ++ coin_id) now ttl
            (coin_info_fetch_faily_cache oracle hf now coin_id _ _ out st2 h)
      | none =>
        simp only [hcg] at h
        exact cachePreserved_of_snd ("coin_info:" ++ coin_id) now ttl
          (coin_info_fetch_faily_cache oracle hf now coin_id _ _ out st2 h)

theorem search_coin_faily_cache (oracle : ℕ → HttpOutcome)
    (hf : ∀ n, outcomeFaily (oracle n) = true) (now : Int) (query : String)
    (limit : ℕ) (st : St) (out : Json) (st2 : St)
    (h : search_coin oracle now query limit st = .ok (out, st2)) :
    cachePreserved st st2 := by
  unfold search_coin at h
  by_cases hq : query = ""
  · rw [if_pos hq] at h
    simp only [Except.ok.injEq, Prod.mk.injEq] at h
    exact Or.inl (by rw [← h.2])
  · rw [if_neg hq] at h
    cases hcg : (_cache_get st.cache now
        ("search:" ++ pyLower query ++ ":" ++ toString limit)
        DEFAULT_TTL).1 with
    | some c =>
      simp only [hcg] at h
      by_cases htc : truthy c = true
      · simp only [htc, if_true, Except.ok.injEq, Prod.mk.injEq] at h
        refine cachePreserved_of_snd
          ("search:" ++ pyLower query ++ ":" ++ toString limit) now
          DEFAULT_TTL ?_
        rw [← h.2]
      · simp only [Bool.not_eq_true] at htc
        simp only [htc, Bool.false_eq_true, if_false] at h
        exact cachePreserved_of_snd
          ("search:" ++ pyLower query ++ ":" ++ toString limit) now
          DEFAULT_TTL
          (search_fetch_faily_cache oracle hf now query limit _ _ out st2 h)
    | none =>
      simp only [hcg] at h
      exact cachePreserved_of_snd
        ("search:" ++ pyLower query ++ ":" ++ toString limit) now
        DEFAULT_TTL
        (search_fetch_faily_cache oracle hf now query limit _ _ out st2 h)

/-- C9 amended: when every transport outcome is failure-like (a raised
error, or a body the shared `not data or "error" in data` test classifies
as failed — empty/falsy, or carrying an error marker, which covers
exhausted retries), none of the four operations ever creates or overwrites
a cache entry: the cache after the call is the cache before it, except
possibly for one lazily removed expired entry under the queried key. -/
theorem c9_no_cache_write_on_failure (oracle : ℕ → HttpOutcome)
    (hf : ∀ n, outcomeFaily (oracle n) = true) :
    (∀ (now : Int) (syms : List String) (vs : String) (ttl : Int) (st : St)
        (res : List (String × Json)) (st2 : St),
      get_simple_price oracle now (.list syms) vs ttl st = .ok (res, st2) →
      cachePreserved st st2) ∧
    (∀ (now : Int) (sym vs : String) (ttl : Int) (st : St) (out : Json)
        (st2 : St),
      get_market_data oracle now sym vs ttl st = .ok (out, st2) →
      cachePreserved st st2) ∧
    (∀ (now : Int) (sym : String) (ttl : Int) (st : St) (out : Json)
        (st2 : St),
      get_coin_info oracle now sym ttl st = .ok (out, st2) →
      cachePreserved st st2) ∧
    (∀ (now : Int) (query : String) (limit : ℕ) (st : St) (out : Json)
        (st2 : St),
      search_coin oracle now query limit st = .ok (out, st2) →
      cachePreserved st st2) :=
  ⟨fun now syms vs ttl st res st2 h =>
      get_simple_price_faily_cache oracle hf now syms vs ttl st res st2 h,
   fun now sym vs ttl st out st2 h =>
      get_market_data_faily_cache oracle hf now sym vs ttl st out st2 h,
   fun now sym ttl st out st2 h =>
      get_coin_info_faily_cache oracle hf now sym ttl st out st2 h,
   fun now query limit st out st2 h =>
      search_coin_faily_cache oracle hf now query limit st out st2 h⟩

/-- C9 counterexample: a failed call does NOT leave the cache completely
unchanged — with an expired entry under the queried key, a
`get_simple_price` call whose fetch fails (empty `{}` response) pops the
entry: the cache goes from one entry to empty. -/
theorem c9_counterexample :
    get_simple_price (fun _ => .ok (Json.obj [])) 100 (.list ["BTC"]) "usd"
        30 ⟨[("simple_price:bitcoin:usd", ((0 : Int), Json.num 1))], [], []⟩ =
      .ok ([("BTC", Json.null)],
        ⟨[], [⟨"/simple/price", [("ids", Json.str "bitcoin"),
          ("vs_currencies", Json.str "usd")]⟩], []⟩) ∧
    (⟨[], [⟨"/simple/price", [("ids", Json.str "bitcoin"),
      ("vs_currencies", Json.str "usd")]⟩], []⟩ : St).cache ≠
      (⟨[("simple_price:bitcoin:usd", ((0 : Int), Json.num 1))], [], []⟩ :
        St).cache :=
  ⟨rfl, fun hcon => List.noConfusion hcon⟩

/-- C9 witness: a failing (empty-response) call from a cache holding an
unrelated fresh key leaves the cache preserved. -/
theorem c9_witness :
    cachePreserved ⟨[("x", ((0 : Int), Json.bool true))], [], []⟩
      ⟨[("x", ((0 : Int), Json.bool true))],
       [⟨"/simple/price", [("ids", Json.str "bitcoin"),
         ("vs_currencies", Json.str "usd")]⟩], []⟩ :=
  (c9_no_cache_write_on_failure (fun _ => .ok (Json.obj []))
    (fun _ => rfl)).1 0 ["BTC"] "usd" 30
    ⟨[("x", ((0 : Int), Json.bool true))], [], []⟩ [("BTC", Json.null)]
    ⟨[("x", ((0 : Int), Json.bool true))],
     [⟨"/simple/price", [("ids", Json.str "bitcoin"),
       ("vs_currencies", Json.str "usd")]⟩], []⟩ rfl
